import Mathlib

/-!
Verification development for the bd2_auto_ab repository.

This file gives a shallow embedding, in Lean 4, of the pure cores of:
  * `bd2_mod_packer/api/character_scraper.py` (string normalisation, fuzzy
    character/costume matching, rowspan-aware table reconstruction, numeric
    coercion of identifiers);
  * `bd2_mod_packer/api/cdn_api.py` (catalog resolution);
  * `bd2_mod_packer/core/resource_manager.py` (change detection,
    replace-task planning with co-target propagation, legacy state
    migration);
  * `bd2_mod_packer/core/unity_processor.py` (multi-directory replacement
    with skip rules),
and proves properties of those embeddings.

Modelling conventions used throughout:
  * Python strings are `String`; character-level operations work on
    `List Char` (ASCII behaviour of `lower`/whitespace is modelled; the
    sources only ever handle ASCII identifiers in the relevant paths).
  * Filesystem timestamps (`st_mtime` floats) are modelled as `Rat`: the
    code only compares differences of timestamps against the constant 1,
    so ordered-field arithmetic captures the comparison logic.
  * Filesystem trees are the inductive `FSNode`; network/HTML/IO effects
    are abstracted into explicit inputs (the parsed rows, the catalog
    document, oracle functions for the two scraper lookups).
  * Python values that are "str or int" are the inductive `StrOrInt`;
    falsiness and Python `==` across the two types are modelled exactly.
  * Fallible code returns `Option`/`Except`; a raised exception is an
    `Except.error` carrying the exception class name.
-/

/-! ## Python string primitives -/

/-- Whitespace class used by `str.strip` and the regex `\s` (ASCII part). -/
def isWs (c : Char) : Bool :=
  c = ' ' || c = '\t' || c = '\n' || c = '\r' || c.toNat = 11 || c.toNat = 12

/-- Helper for `re.sub(r"\s+", " ", s)`: replace each maximal whitespace run
by a single space.  The boolean records whether we are inside a run. -/
def squashWsAux : Bool → List Char → List Char
  | _, [] => []
  | inRun, c :: rest =>
    if isWs c then
      if inRun then squashWsAux true rest
      else ' ' :: squashWsAux true rest
    else c :: squashWsAux false rest

/-- `re.sub(r"\s+", " ", s)` on the character list. -/
def squashWs (l : List Char) : List Char := squashWsAux false l

/-- Python `str.strip()` (no argument): drop whitespace from both ends. -/
def pyStrip (l : List Char) : List Char :=
  ((l.dropWhile isWs).reverse.dropWhile isWs).reverse

/-- `_norm` of character_scraper.py: collapse whitespace, strip, lowercase. -/
def pyNorm (s : String) : String :=
  String.mk ((pyStrip (squashWs s.toList)).map Char.toLower)

/-- `b.isPre a` means the list `b` starts with the list `a`
(Python `"".join(b).startswith("".join(a))` reads `isPre a b`). -/
def isPre : List Char → List Char → Bool
  | [], _ => true
  | _ :: _, [] => false
  | a :: as, b :: bs => a = b && isPre as bs

/-- Python `a in b` on strings: `occursIn a b` holds when the character list
`a` occurs contiguously inside `b`. -/
def occursIn : List Char → List Char → Bool
  | n, [] => isPre n []
  | n, c :: t => isPre n (c :: t) || occursIn n t

/-- Python `a.endswith(suffix)` on character lists. -/
def isSuffix (suf s : List Char) : Bool := isPre suf.reverse s.reverse

/-- Python `str.lower()` (ASCII behaviour). -/
def lowerStr (s : String) : String := String.mk (s.toList.map Char.toLower)

/-- Python `str.upper()` (ASCII behaviour). -/
def upperStr (s : String) : String := String.mk (s.toList.map Char.toUpper)

/-- Fuel-indexed body of Python `str.replace(old, new)` for non-empty `old`
(the sources only call it with the literal patterns ".atlas" and ".png").
Fuel bounds the number of consumed characters; `replaceAll` supplies
`s.length`, which suffices because every step consumes at least one
character. -/
def replaceAllFuel (pat rep : List Char) : Nat → List Char → List Char
  | 0, s => s
  | fuel + 1, s =>
    if pat ≠ [] && isPre pat s then
      rep ++ replaceAllFuel pat rep fuel (s.drop pat.length)
    else
      match s with
      | [] => []
      | c :: t => c :: replaceAllFuel pat rep fuel t

/-- Python `s.replace(pat, rep)` for non-empty `pat`. -/
def pyReplace (s pat rep : String) : String :=
  String.mk (replaceAllFuel pat.toList rep.toList s.toList.length s.toList)

/-! ## `_maybe_to_int` and its value type -/

/-- A Python value that is either an `int` or a `str`. -/
inductive StrOrInt where
  | int (n : Int)
  | str (s : String)
deriving DecidableEq, Repr

/-- Python truthiness of a str-or-int value (`0` and `""` are falsy). -/
def strOrIntFalsy : StrOrInt → Bool
  | .int n => n = 0
  | .str s => s = ""

/-- Rendering of a str-or-int value inside an f-string. -/
def strOrIntStr : StrOrInt → String
  | .int n => toString n
  | .str s => s

/-- ASCII decimal digit test (`\d` of the regex, ASCII fragment). -/
def isDigitCh (c : Char) : Bool := '0' ≤ c && c ≤ '9'

/-- `re.fullmatch(r"[+-]?\d+", t)`: an optional single sign followed by a
non-empty run of decimal digits. -/
def isSignedDigits : List Char → Bool
  | [] => false
  | c :: rest =>
    if c = '+' || c = '-' then rest ≠ [] && rest.all isDigitCh
    else (c :: rest).all isDigitCh

/-- Value of a digit run. -/
def digitsVal (l : List Char) : Nat :=
  l.foldl (fun a c => a * 10 + (c.toNat - '0'.toNat)) 0

/-- Python `int(t)` on a string matching `[+-]?\d+`. -/
def parseSigned (l : List Char) : Int :=
  match l with
  | '-' :: rest => -(digitsVal rest : Int)
  | '+' :: rest => (digitsVal rest : Int)
  | _ => (digitsVal l : Int)

/-- `_maybe_to_int` of character_scraper.py: strip the string; if the result
is an optionally signed digit run convert it to an int, otherwise return the
stripped string. -/
def maybe_to_int (s : String) : StrOrInt :=
  let t := pyStrip s.toList
  if isSignedDigits t then .int (parseSigned t) else .str (String.mk t)

/-! ## Character rows and the fuzzy match of `get_idle` / `get_cutscene` -/

/-- `CharacterData` of character_scraper.py. -/
structure CharacterData where
  character : String
  costume : String
  idle : String
  cutscene : String := ""
  char_id : String := ""
deriving DecidableEq, Repr

/-- The inner `one(a, b)` scorer of `match_score`: 2 exact, 1 when either
normalised string is a prefix of the other, 0 when either contains the
other, -1 otherwise. -/
def scoreOne (a b : String) : Int :=
  if a = b then 2
  else if isPre b.toList a.toList || isPre a.toList b.toList then 1
  else if occursIn a.toList b.toList || occursIn b.toList a.toList then 0
  else -1

/-- `match_score(row)`: score the normalised character field against the
normalised query character, and likewise for the costume field. -/
def matchScore (nChar nCos : String) (r : CharacterData) : Int × Int :=
  (scoreOne (pyNorm r.character) nChar, scoreOne (pyNorm r.costume) nCos)

/-- A candidate kept by the selection loop: Python builds the tuple
`(sum of scores, max of scores, row)`. -/
abbrev Cand : Type := Int × Int × CharacterData

/-- Python tuple comparison `cand > best` on `(Int, Int, CharacterData)`:
lexicographic on the two ints; on a full tie the rows are compared, which
succeeds only when they are equal (`CharacterData` defines `==` but no
ordering), so unequal rows raise `TypeError`, modelled by `none`. -/
def candGt (c b : Cand) : Option Bool :=
  if c.1 ≠ b.1 then some (decide (c.1 > b.1))
  else if c.2.1 ≠ b.2.1 then some (decide (c.2.1 > b.2.1))
  else if c.2.2 = b.2.2 then some false
  else none

/-- The best-candidate selection loop shared by `get_idle` and
`get_cutscene`: skip candidates with a negative field score; otherwise keep
`cand` when `best` is absent or `cand > best`. -/
def selectLoop (nChar nCos : String) :
    Option Cand → List CharacterData → Except String (Option Cand)
  | best, [] => .ok best
  | best, r :: rest =>
    let sc := matchScore nChar nCos r
    if sc.1 < 0 || sc.2 < 0 then selectLoop nChar nCos best rest
    else
      let cand : Cand := (sc.1 + sc.2, max sc.1 sc.2, r)
      match best with
      | none => selectLoop nChar nCos (some cand) rest
      | some b =>
        match candGt cand b with
        | none => .error "TypeError"
        | some true => selectLoop nChar nCos (some cand) rest
        | some false => selectLoop nChar nCos (some b) rest

/-- `get_idle` of character_scraper.py, after the HTML has been parsed into
`rows`: raise `ValueError` on an empty row list, run the selection loop,
raise `LookupError` when nothing survives, otherwise return the selected
row's idle value through `_maybe_to_int`. -/
def get_idle (rows : List CharacterData) (character costume : String) :
    Except String StrOrInt :=
  if rows.isEmpty then .error "ValueError"
  else
    match selectLoop (pyNorm character) (pyNorm costume) none rows with
    | .error e => .error e
    | .ok none => .error "LookupError"
    | .ok (some best) => .ok (maybe_to_int best.2.2.idle)

/-- `get_cutscene` of character_scraper.py: identical to `get_idle` except
that the cutscene field of the selected row is returned. -/
def get_cutscene (rows : List CharacterData) (character costume : String) :
    Except String StrOrInt :=
  if rows.isEmpty then .error "ValueError"
  else
    match selectLoop (pyNorm character) (pyNorm costume) none rows with
    | .error e => .error e
    | .ok none => .error "LookupError"
    | .ok (some best) => .ok (maybe_to_int best.2.2.cutscene)

example : pyNorm "  Hero   B " = "hero b" := by decide

example :
    get_idle [⟨"Hero", "CostumeA", " 1001 ", "", ""⟩] "hero" "costumea"
      = .ok (.int 1001) := rfl

example :
    get_idle [⟨"ab", "x", "1", "", ""⟩, ⟨"ab", "x", "2", "", ""⟩] "ab" "x"
      = .error "TypeError" := rfl

example :
    get_idle [⟨"ab", "xy", "1", "", ""⟩, ⟨"ab", "x", "2", "", ""⟩] "ab" "x"
      = .ok (.int 2) := rfl

/-! ## `_build_table_matrix`: rowspan-aware table reconstruction -/

/-- A physical table cell, after text extraction: `value` is the result of
`_cell_text` and `rowspan` the parsed `rowspan` attribute when present. -/
structure Cell where
  rowspan : Option Nat
  value : String
deriving DecidableEq, Repr

/-- The `rowspan_tracker` dictionary: per column index, the number of
further rows the carried value still covers and the value itself. -/
abbrev Tracker : Type := Nat → Option (Nat × String)

/-- The empty tracker. -/
def emptyTracker : Tracker := fun _ => none

/-- Point update of a tracker (dictionary write / delete). -/
def trackerSet (tr : Tracker) (k : Nat) (v : Option (Nat × String)) : Tracker :=
  fun j => if j = k then v else tr j

/-- State of the per-row loop of `_build_table_matrix`: the `row_data`
accumulator, the `cell_index` cursor into the physical cells, and the
`rowspan_tracker`. -/
structure RowState where
  rowData : List String
  cellIndex : Nat
  tracker : Tracker

/-- One-column body of the `for col_index in range(20)` loop: use the carry
when one is active at this column (decrementing or deleting it), otherwise
consume the next physical cell (seeding a carry when it declares a rowspan
greater than 1), otherwise pad with the empty string. -/
def colStep (cells : List Cell) (colIndex : Nat) (st : RowState) : RowState :=
  match st.tracker colIndex with
  | some (remaining, value) =>
    { rowData := st.rowData ++ [value]
      cellIndex := st.cellIndex
      tracker :=
        trackerSet st.tracker colIndex
          (if remaining > 1 then some (remaining - 1, value) else none) }
  | none =>
    match cells.get? st.cellIndex with
    | some cell =>
      { rowData := st.rowData ++ [cell.value]
        cellIndex := st.cellIndex + 1
        tracker :=
          match cell.rowspan with
          | some rs =>
            if rs > 1 then trackerSet st.tracker colIndex (some (rs - 1, cell.value))
            else st.tracker
          | none => st.tracker }
    | none =>
      { rowData := st.rowData ++ [""]
        cellIndex := st.cellIndex
        tracker := st.tracker }

/-- The `for col_index in range(20)` loop with its early exit: after each
column the row is cut off once it holds 10 entries.  `fuel` counts the
remaining iterations of the bounded range (20 at entry). -/
def buildRowLoop (cells : List Cell) : Nat → Nat → RowState → RowState
  | 0, _, st => st
  | fuel + 1, colIndex, st =>
    let st' := colStep cells colIndex st
    if st'.rowData.length ≥ 10 then st'
    else buildRowLoop cells fuel (colIndex + 1) st'

/-- Processing of one `<tr>`: run the bounded column loop on an empty
`row_data` with the tracker inherited from the previous rows. -/
def rowStep (tr : Tracker) (cells : List Cell) : RowState :=
  buildRowLoop cells 20 0 ⟨[], 0, tr⟩

/-- The outer loop of `_build_table_matrix` over the physical rows,
threading the tracker. -/
def buildRows : Tracker → List (List Cell) → List (List String)
  | _, [] => []
  | tr, cells :: rest => (rowStep tr cells).rowData :: buildRows (rowStep tr cells).tracker rest

/-- `_build_table_matrix`: build the logical matrix from the physical rows,
starting with no active carries. -/
def build_table_matrix (trs : List (List Cell)) : List (List String) :=
  buildRows emptyTracker trs

/-- The tracker state just before physical row `n` is processed. -/
def trackerAfterRows (tr : Tracker) : List (List Cell) → Tracker
  | [] => tr
  | cells :: rest => trackerAfterRows (rowStep tr cells).tracker rest

/-- Tracker in force when row `n` of `trs` starts. -/
def trackerBefore (trs : List (List Cell)) (n : Nat) : Tracker :=
  trackerAfterRows emptyTracker (trs.take n)

example :
    build_table_matrix
        [[⟨some 2, "A"⟩, ⟨none, "b1"⟩], [⟨none, "b2"⟩]]
      = [["A", "b1", "", "", "", "", "", "", "", ""],
         ["A", "b2", "", "", "", "", "", "", "", ""]] := by decide

example : trackerBefore [[⟨some 2, "A"⟩, ⟨none, "b1"⟩], [⟨none, "b2"⟩]] 1 0
    = some (1, "A") := by decide

/-! ## Change detection (`check_version_and_updates`, per-leaf diff) -/

/-- One record of the `subfile` list persisted per leaf: a child path and
its (aggregate) modification time. -/
structure SubfileInfo where
  path : String
  mtime : Rat
deriving DecidableEq, Repr

/-- The dict comprehension
`{sf["path"]: sf["mtime"] for sf in existing_subfiles}`: lookup with
later entries overwriting earlier ones. -/
def lookupLastMtime : List SubfileInfo → String → Option Rat
  | [], _ => none
  | sf :: rest, p =>
    match lookupLastMtime rest p with
    | some m => some m
    | none => if sf.path = p then some sf.mtime else none

/-- The per-leaf diff of `check_version_and_updates` for a leaf already
present in the persisted snapshot: changed when the aggregate mtimes drift
by more than 1 second, else when some current child is new or drifted by
more than 1 second, else when some stored child path disappeared. -/
def leafChanged (existing_mtime : Rat) (existing_subfiles : List SubfileInfo)
    (current_mtime : Rat) (current_subfiles : List SubfileInfo) : Bool :=
  if abs (current_mtime - existing_mtime) > 1 then true
  else
    let changedNewOrDrifted :=
      current_subfiles.any (fun sf =>
        match lookupLastMtime existing_subfiles sf.path with
        | none => true
        | some m => abs (sf.mtime - m) > 1)
    let changedDeleted :=
      existing_subfiles.any (fun ef =>
        !(current_subfiles.any (fun sf => sf.path = ef.path)))
    changedNewOrDrifted || changedDeleted

/-- A persisted directory entry (`ReplaceEntry` of resource_manager.py),
with the path already given relative to the project root. -/
structure ReplaceEntry where
  path : String
  mtime : Rat
  subfile : List SubfileInfo
deriving DecidableEq, Repr

/-- A freshly scanned leaf directory with its aggregate mtime and child
records. -/
structure LeafScan where
  rel_path : String
  mtime : Rat
  subfiles : List SubfileInfo
deriving DecidableEq, Repr

/-- `existing_replace_map` lookup: the stored entry for a relative path
(dictionary built from the stored list, later entries overwriting). -/
def existingEntryFor : List ReplaceEntry → String → Option ReplaceEntry
  | [], _ => none
  | e :: rest, p =>
    match existingEntryFor rest p with
    | some r => some r
    | none => if e.path = p then some e else none

/-- The `dirs_to_update` list built by `check_version_and_updates`: a
scanned leaf is marked when it is new, or when the per-leaf diff reports a
change against its stored entry. -/
def dirsToUpdate (stored : List ReplaceEntry) (scans : List LeafScan) : List String :=
  scans.filterMap (fun s =>
    match existingEntryFor stored s.rel_path with
    | some e => if leafChanged e.mtime e.subfile s.mtime s.subfiles then some s.rel_path else none
    | none => some s.rel_path)

/-! ## Filesystem model for the replacement tree -/

/-- A filesystem entry: a regular file with its content, or a directory
with its children in listing order. -/
inductive FSNode where
  | file (name : String) (content : String)
  | dir (name : String) (children : List FSNode)

/-- The `rglob` scan of `_is_directory_empty`: does the forest contain a
regular file anywhere? -/
def listHasFile : List FSNode → Bool
  | [] => false
  | .file _ _ :: _ => true
  | .dir _ ch :: rest => listHasFile ch || listHasFile rest

/-- `_is_directory_empty` of resource_manager.py on a directory's children:
true when no regular file exists anywhere beneath. -/
def is_directory_empty (children : List FSNode) : Bool := !listHasFile children

/-! ## Replace-task planning (`_build_replace_mapping`) -/

/-- `ReplaceTask` of resource_manager.py. -/
structure ReplaceTask where
  char : String
  costume : String
  type : String
  replace_dir : String
  data_name : String
  downloaded_dir : String
  target_dir : String
  mod_name : String := ""
  idle_or_cutscene_value : StrOrInt := .str ""
  hash_id : String := ""
  should_execute : Bool := true
deriving DecidableEq, Repr

/-- Backslash-to-slash path normalisation (`path.replace("\\", "/")`). -/
def normSlash (s : String) : String :=
  String.mk (s.toList.map (fun c => if c = '\x5c' then '/' else c))

/-- `sub_dirs[0].name if sub_dirs else ""`: name of the first directory
child, used as the mod name. -/
def firstSubdirName : List FSNode → String
  | [] => ""
  | .dir n _ :: _ => n
  | .file _ _ :: rest => firstSubdirName rest

/-- External collaborators of the planner, abstracted into oracles:
`idleOf`/`cutsceneOf` model `character_scraper.get_idle`/`get_cutscene`
(with `none` for a raised lookup/parse error) and `catalog` models
`cdn_api.get_resource_bundle_name_and_hash` returning a resource name and
hash.  The three path roots are the string prefixes the planner
interpolates into the task paths. -/
structure PlannerEnv where
  idleOf : String → String → Option StrOrInt
  cutsceneOf : String → String → Option StrOrInt
  catalog : StrOrInt → Option (String × String)
  downloadedRoot : String
  targetRoot : String
  rootRel : String

/-- `_create_replace_task`: dispatch on the (upper-cased) type name to one
of the two scraper lookups, drop the leaf on a missing or falsy value,
resolve resource name and hash through the catalog (dropping the leaf when
absent), and otherwise build the task record; `should_execute` is passed
in. -/
def create_replace_task (env : PlannerEnv) (char costume type_name : String)
    (typeChildren : List FSNode) (relPath : String) (should_execute : Bool) :
    Option ReplaceTask :=
  let value? :=
    if upperStr type_name = "IDLE" then env.idleOf char costume
    else if upperStr type_name = "CUTSCENE" then env.cutsceneOf char costume
    else none
  match value? with
  | none => none
  | some v =>
    if strOrIntFalsy v then none
    else
      match env.catalog v with
      | none => none
      | some (resource_name, hash_id) =>
        some
          { char := char
            costume := costume
            type := type_name
            replace_dir := relPath
            data_name := resource_name
            downloaded_dir := env.downloadedRoot ++ "/" ++ resource_name
            target_dir := env.targetRoot ++ "/" ++ strOrIntStr v ++ "/" ++ hash_id ++ "/__data"
            mod_name := firstSubdirName typeChildren
            idle_or_cutscene_value := v
            hash_id := hash_id
            should_execute := should_execute }

/-- Target paths of the tasks currently marked executable
(`executable_target_dirs` of `_build_replace_mapping`). -/
def executableTargetDirs (tasks : List ReplaceTask) : List String :=
  (tasks.filter (fun t => t.should_execute)).map (fun t => t.target_dir)

/-- The co-target propagation pass of `_build_replace_mapping`: mark as
executable every task whose target path is shared with an already
executable task. -/
def propagateCoTargets (tasks : List ReplaceTask) : List ReplaceTask :=
  let ex := executableTargetDirs tasks
  tasks.map (fun t =>
    if !t.should_execute && decide (t.target_dir ∈ ex) then
      { t with should_execute := true }
    else t)

/-- Truthiness of the `specific_dirs` argument (`None` and the empty list
are falsy). -/
def specificActive : Option (List String) → Bool
  | some (_ :: _) => true
  | _ => false

/-- The `specific_dirs_set` of `_build_replace_mapping`: the given paths,
slash-normalised (empty when no list was given). -/
def sdSetOf : Option (List String) → List String
  | some ds => ds.map normSlash
  | none => []

/-- Relative path of a leaf directory below the project root. -/
def leafRelPath (rootRel char costume type_name : String) : String :=
  rootRel ++ "/" ++ char ++ "/" ++ costume ++ "/" ++ type_name

/-- The `should_execute` decision for a leaf: membership of its
slash-normalised relative path in the `specific_dirs` set, or `true` when
`specific_dirs` is falsy. -/
def leafShouldExecute (specific_dirs : Option (List String)) (relPath : String) : Bool :=
  if specificActive specific_dirs then decide (normSlash relPath ∈ sdSetOf specific_dirs)
  else true

/-- The first phase of `_build_replace_mapping`: walk the three directory
levels of the replacement tree, skip empty leaves, decide `should_execute`
by membership of the leaf's slash-normalised relative path in the
`specific_dirs` set (always true when `specific_dirs` is falsy), and
create one task per leaf that resolves. -/
def buildTasksBase (env : PlannerEnv) (children : List FSNode)
    (specific_dirs : Option (List String)) : List ReplaceTask :=
  children.flatMap (fun n1 =>
    match n1 with
    | .file _ _ => []
    | .dir char ch1 =>
      ch1.flatMap (fun n2 =>
        match n2 with
        | .file _ _ => []
        | .dir costume ch2 =>
          ch2.filterMap (fun n3 =>
            match n3 with
            | .file _ _ => none
            | .dir type_name ch3 =>
              if is_directory_empty ch3 then none
              else
                create_replace_task env char costume type_name ch3
                  (leafRelPath env.rootRel char costume type_name)
                  (leafShouldExecute specific_dirs
                    (leafRelPath env.rootRel char costume type_name)))))

/-- `_build_replace_mapping`: build the task list by the tree walk and,
when a (non-empty) `specific_dirs` list was given, apply the co-target
propagation pass. -/
def build_replace_mapping (env : PlannerEnv) (children : List FSNode)
    (specific_dirs : Option (List String)) : List ReplaceTask :=
  let base := buildTasksBase env children specific_dirs
  if specificActive specific_dirs then propagateCoTargets base else base

/-! ## Unity processing (`process_multiple_replace_dirs`) -/

/-- File-type classification of `_get_file_type` (by lower-cased file-name
suffix). -/
inductive FileType where
  | skel
  | atlas
  | png
  | unknown
deriving DecidableEq, Repr

/-- `_get_file_type` of unity_processor.py. -/
def get_file_type (filename : String) : FileType :=
  let l := lowerStr filename
  if isSuffix ".skel".toList l.toList then .skel
  else if isSuffix ".atlas".toList l.toList then .atlas
  else if isSuffix ".png".toList l.toList then .png
  else .unknown

/-- `os.path.exists(os.path.join(replace_root, name))` for a name directly
under the replacement root: a file or directory child of that name. -/
def existsAtRoot (children : List FSNode) (name : String) : Bool :=
  children.any (fun n =>
    match n with
    | .file nm _ => nm = name
    | .dir nm _ => nm = name)

/-- `_should_skip_file`: within one replacement directory, skip an asset
name when its descriptor (.json) file exists at the directory root but the
corresponding skeleton (.skel) file does not. -/
def should_skip_file (data_name : String) (replace_root : List FSNode) : Bool :=
  let json_name := pyReplace (pyReplace data_name ".atlas" ".json") ".png" ".json"
  let skel_name := pyReplace (pyReplace data_name ".atlas" ".skel") ".png" ".skel"
  existsAtRoot replace_root json_name && !existsAtRoot replace_root skel_name

/-- First file child carrying the target name (the `target_name in files`
test of one `os.walk` step, with the file's content as result). -/
def findFileNamed (t : String) : List FSNode → Option String
  | [] => none
  | .file nm c :: rest => if nm = t then some c else findFileNamed t rest
  | .dir _ _ :: rest => findFileNamed t rest

mutual

/-- `_find_replacement_file` on a directory's children: `os.walk` visits
the directory itself first, then each subdirectory depth-first in listing
order; the first directory whose immediate files contain the target name
wins, and the matching file's content is returned. -/
def find_replacement_file (t : String) (children : List FSNode) : Option String :=
  match findFileNamed t children with
  | some c => some c
  | none => findInDirs t children

/-- Depth-first continuation of `find_replacement_file` over the
subdirectories. -/
def findInDirs (t : String) : List FSNode → Option String
  | [] => none
  | .file _ _ :: rest => findInDirs t rest
  | .dir _ ch :: rest =>
    match find_replacement_file t ch with
    | some c => some c
    | none => findInDirs t rest

end

/-- The per-asset directory loop of `process_multiple_replace_dirs`: skip a
directory when the skip rule fires there, otherwise use the first
directory holding a replacement file for the asset; later directories are
not consulted once one applied. -/
def resolveReplacement (name : String) : List (List FSNode) → Option String
  | [] => none
  | d :: rest =>
    if should_skip_file name d then resolveReplacement name rest
    else
      match find_replacement_file name d with
      | some c => some c
      | none => resolveReplacement name rest

/-- An object of the loaded bundle: a text asset with its script content, a
texture with its image content, or an object of another type. -/
inductive UnityObj where
  | textAsset (name : String) (script : String)
  | texture2D (name : String) (image : String)
  | other (typeName : String)
deriving DecidableEq, Repr

/-- `process_multiple_replace_dirs`, restricted to its pure replacement
semantics: every skeleton/atlas text asset and every texture is replaced
by the content resolved across the replacement directories (unchanged when
nothing resolves); applying a found replacement is modelled as always
succeeding. -/
def process_multiple_replace_dirs (objs : List UnityObj)
    (dirs : List (List FSNode)) : List UnityObj :=
  objs.map (fun o =>
    match o with
    | .textAsset nm sc =>
      if get_file_type nm = .skel || get_file_type nm = .atlas then
        match resolveReplacement nm dirs with
        | some content => .textAsset nm content
        | none => .textAsset nm sc
      else .textAsset nm sc
    | .texture2D nm img =>
      match resolveReplacement (nm ++ ".png") dirs with
      | some content => .texture2D nm content
      | none => .texture2D nm img
    | .other t => .other t)

/-! ## Catalog resolution (`get_resource_bundle_name_and_hash`) -/

/-- One entry of the catalog document's `bundles` array; each field may be
absent (`dict.get` yields `None`). -/
structure CatalogBundle where
  bundleName : Option StrOrInt
  readableName : Option String
  hash : Option String
deriving DecidableEq, Repr

/-- Python truthiness of the optional `readableName` (absent and the empty
string are falsy). -/
def truthyName : Option String → Bool
  | none => false
  | some s => s ≠ ""

/-- The scan loop of `get_resource_bundle_name_and_hash`: walk the
`bundles` array; on an entry whose `bundleName` equals the identifier,
return `(readableName + ".bundle", hash)` provided `readableName` is
truthy — otherwise keep scanning; return `None` when the array is
exhausted. -/
def get_resource_bundle_name_and_hash (idle_value : StrOrInt) :
    List CatalogBundle → Option (String × Option String)
  | [] => none
  | b :: rest =>
    if b.bundleName = some idle_value then
      match b.readableName with
      | some r =>
        if r ≠ "" then some (r ++ ".bundle", b.hash)
        else get_resource_bundle_name_and_hash idle_value rest
      | none => get_resource_bundle_name_and_hash idle_value rest
    else get_resource_bundle_name_and_hash idle_value rest

/-! ## Persisted state document and legacy migration (`_load_data_json`) -/

/-- JSON values, as far as the state document needs them. -/
inductive Json where
  | jnull
  | jbool (b : Bool)
  | jnum (n : Int)
  | jstr (s : String)
  | jarr (elems : List Json)
  | jobj (fields : List (String × Json))

/-- Dictionary field list of a JSON object (Python dicts have unique keys;
the operations below remove or replace every occurrence of a key, which
coincides with dict behaviour on such inputs). -/
abbrev JFields : Type := List (String × Json)

/-- `key in data`. -/
def hasKey (fields : JFields) (k : String) : Bool :=
  fields.any (fun p => p.1 = k)

/-- `data[key]` / `data.get(key)`. -/
def lookupKey : JFields → String → Option Json
  | [], _ => none
  | p :: rest, k => if p.1 = k then some p.2 else lookupKey rest k

/-- Removal of a key (the mutation part of `dict.pop`). -/
def eraseKey (fields : JFields) (k : String) : JFields :=
  fields.filter (fun p => p.1 ≠ k)

/-- `data.pop(key, default)`: the popped value and the remaining fields. -/
def popKey (fields : JFields) (k : String) (default : Json) : Json × JFields :=
  (match lookupKey fields k with
   | some v => v
   | none => default,
   eraseKey fields k)

/-- `data[key] = v`: replace the value in place when the key exists,
otherwise append the binding. -/
def setKey (fields : JFields) (k : String) (v : Json) : JFields :=
  if hasKey fields k then fields.map (fun p => if p.1 = k then (k, v) else p)
  else fields ++ [(k, v)]

/-- Result of `_load_data_json` on an already-parsed document: the document
returned to the caller together with the documents passed to
`_save_data_json`, in order. -/
structure LoadResult where
  doc : JFields
  saves : List JFields

/-- The author-entry rewrite of the second migration: a bare directory
array becomes an object carrying the (pre-pop) global version fields. -/
def migrateAuthorEntry (globalVersion globalUpdate : Json) :
    String × Json → String × Json
  | (name, Json.jarr xs) =>
    (name, Json.jobj [("version", globalVersion), ("updateTime", globalUpdate),
                      ("dirs", Json.jarr xs)])
  | p => p

/-- Whether an author entry is in the legacy array shape. -/
def authorEntryIsArr : String × Json → Bool
  | (_, Json.jarr _) => true
  | _ => false

/-- `_load_data_json` of resource_manager.py on a successfully parsed
document: migrate the legacy flat shape (`replaceDir` present, no
`authors`) into a per-workspace entry under the key "replace" and persist;
ensure `authors` exists; migrate legacy array-shaped author entries and
persist when any was found; return the final document. -/
def load_data_json (data0 : JFields) : LoadResult :=
  let step1 : JFields × List JFields :=
    if hasKey data0 "replaceDir" && !hasKey data0 "authors" then
      let p1 := popKey data0 "replaceDir" (Json.jarr [])
      let p2 := popKey p1.2 "version" (Json.jnum 0)
      let p3 := popKey p2.2 "updateTime" (Json.jnum 0)
      let migrated :=
        setKey p3.2 "authors"
          (Json.jobj [("replace",
            Json.jobj [("version", p2.1), ("updateTime", p3.1), ("dirs", p1.1)])])
      (migrated, [migrated])
    else if !hasKey data0 "authors" then
      (setKey data0 "authors" (Json.jobj []), [])
    else (data0, [])
  let data1 := step1.1
  let authors : JFields :=
    match lookupKey data1 "authors" with
    | some (Json.jobj fs) => fs
    | _ => []
  let migrationNeeded := authors.any authorEntryIsArr
  if migrationNeeded then
    let gv := (popKey data1 "version" (Json.jnum 0)).1
    let gu := (popKey data1 "updateTime" (Json.jnum 0)).1
    let authorsMigrated := authors.map (migrateAuthorEntry gv gu)
    let data2 := eraseKey (eraseKey data1 "version") "updateTime"
    let data3 := setKey data2 "authors" (Json.jobj authorsMigrated)
    { doc := data3, saves := step1.2 ++ [data3] }
  else { doc := data1, saves := step1.2 }

example :
    (load_data_json
        [("version", Json.jnum 7), ("updateTime", Json.jnum 9),
         ("replaceDir", Json.jarr [Json.jstr "a"])]).doc
      = [("authors", Json.jobj [("replace",
           Json.jobj [("version", Json.jnum 7), ("updateTime", Json.jnum 9),
                      ("dirs", Json.jarr [Json.jstr "a"])])])] := rfl

/-! # Theorems -/

/-! ## Dictionary helper lemmas -/

theorem eraseKey_cons (p : String × Json) (rest : JFields) (k : String) :
    eraseKey (p :: rest) k =
      if p.1 = k then eraseKey rest k else p :: eraseKey rest k := by
  by_cases hp : p.1 = k <;> simp [eraseKey, List.filter_cons, hp]

theorem lookupKey_eraseKey_ne (fs : JFields) (k k2 : String) (h : k ≠ k2) :
    lookupKey (eraseKey fs k2) k = lookupKey fs k := by
  induction fs with
  | nil => rfl
  | cons p rest ih =>
    rw [eraseKey_cons]
    by_cases hp : p.1 = k2
    · have hpk : p.1 ≠ k := by
        intro hh
        exact h (hh ▸ hp)
      simp [hp, lookupKey, hpk, ih, Ne.symm h]
    · by_cases hk : p.1 = k <;> simp [hp, lookupKey, hk, ih, h]

theorem hasKey_cons (p : String × Json) (rest : JFields) (k : String) :
    hasKey (p :: rest) k = (decide (p.1 = k) || hasKey rest k) := by
  simp [hasKey]

theorem hasKey_eraseKey_self (fs : JFields) (k : String) :
    hasKey (eraseKey fs k) k = false := by
  induction fs with
  | nil => rfl
  | cons p rest ih =>
    rw [eraseKey_cons]
    by_cases hp : p.1 = k
    · simp [hp, ih]
    · simp [hp, hasKey_cons, ih]

theorem hasKey_eraseKey_ne (fs : JFields) (k k2 : String) (h : k ≠ k2) :
    hasKey (eraseKey fs k2) k = hasKey fs k := by
  induction fs with
  | nil => rfl
  | cons p rest ih =>
    rw [eraseKey_cons]
    by_cases hp : p.1 = k2
    · have hpk : p.1 ≠ k := by
        intro hh
        exact h (hh ▸ hp)
      simp [hp, hasKey_cons, hpk, ih, Ne.symm h]
    · by_cases hk : p.1 = k <;> simp [hp, hasKey_cons, hk, ih, h]

theorem hasKey_append (fs gs : JFields) (k : String) :
    hasKey (fs ++ gs) k = (hasKey fs k || hasKey gs k) := by
  simp [hasKey, List.any_append]

theorem lookupKey_append_right (fs : JFields) (k : String) (v : Json)
    (h : hasKey fs k = false) : lookupKey (fs ++ [(k, v)]) k = some v := by
  induction fs with
  | nil => simp [lookupKey]
  | cons p rest ih =>
    rw [hasKey_cons] at h
    simp only [Bool.or_eq_false_iff, decide_eq_false_iff_not] at h
    simp only [List.cons_append, lookupKey, h.1, if_false]
    exact ih h.2

/-- Closed form of `load_data_json` on a legacy flat document. -/
theorem load_data_json_legacy_eq (data0 : JFields) (V U D : Json)
    (h1 : hasKey data0 "replaceDir" = true)
    (h2 : hasKey data0 "authors" = false)
    (h3 : lookupKey data0 "version" = some V)
    (h4 : lookupKey data0 "updateTime" = some U)
    (h5 : lookupKey data0 "replaceDir" = some D) :
    load_data_json data0 =
      { doc := eraseKey (eraseKey (eraseKey data0 "replaceDir") "version") "updateTime"
                 ++ [("authors", Json.jobj [("replace",
                      Json.jobj [("version", V), ("updateTime", U), ("dirs", D)])])]
        saves := [eraseKey (eraseKey (eraseKey data0 "replaceDir") "version") "updateTime"
                 ++ [("authors", Json.jobj [("replace",
                      Json.jobj [("version", V), ("updateTime", U), ("dirs", D)])])]] } := by
  have hv1 : lookupKey (eraseKey data0 "replaceDir") "version" = some V := by
    rw [lookupKey_eraseKey_ne _ _ _ (by decide)]
    exact h3
  have hu1 : lookupKey (eraseKey (eraseKey data0 "replaceDir") "version") "updateTime"
      = some U := by
    rw [lookupKey_eraseKey_ne _ _ _ (by decide), lookupKey_eraseKey_ne _ _ _ (by decide)]
    exact h4
  have hga : hasKey (eraseKey (eraseKey (eraseKey data0 "replaceDir") "version") "updateTime")
      "authors" = false := by
    rw [hasKey_eraseKey_ne _ _ _ (by decide), hasKey_eraseKey_ne _ _ _ (by decide),
      hasKey_eraseKey_ne _ _ _ (by decide)]
    exact h2
  unfold load_data_json
  simp only [h1, h2, Bool.not_false, Bool.and_true, Bool.and_self, if_true, popKey, h5, hv1, hu1,
    setKey, hga, if_false, Bool.false_eq_true]
  rw [lookupKey_append_right _ _ _ hga]
  simp [authorEntryIsArr]

/-- Claim C9: when `_load_data_json` reads a document in the legacy flat
shape (top-level version, updateTime and leaf-directory list, with no
per-workspace keying), the returned document holds a per-workspace entry
under the default key "replace" with exactly the old version, updateTime
and directory list, the flat top-level fields are gone, and the migrated
document is the one persisted before returning. -/
theorem C9_legacy_migration (data0 : JFields) (V U D : Json)
    (h1 : hasKey data0 "replaceDir" = true)
    (h2 : hasKey data0 "authors" = false)
    (h3 : lookupKey data0 "version" = some V)
    (h4 : lookupKey data0 "updateTime" = some U)
    (h5 : lookupKey data0 "replaceDir" = some D) :
    lookupKey (load_data_json data0).doc "authors"
        = some (Json.jobj [("replace",
            Json.jobj [("version", V), ("updateTime", U), ("dirs", D)])])
      ∧ hasKey (load_data_json data0).doc "version" = false
      ∧ hasKey (load_data_json data0).doc "updateTime" = false
      ∧ hasKey (load_data_json data0).doc "replaceDir" = false
      ∧ (load_data_json data0).saves = [(load_data_json data0).doc] := by
  rw [load_data_json_legacy_eq data0 V U D h1 h2 h3 h4 h5]
  have hga : hasKey (eraseKey (eraseKey (eraseKey data0 "replaceDir") "version") "updateTime")
      "authors" = false := by
    rw [hasKey_eraseKey_ne _ _ _ (by decide), hasKey_eraseKey_ne _ _ _ (by decide),
      hasKey_eraseKey_ne _ _ _ (by decide)]
    exact h2
  refine ⟨lookupKey_append_right _ _ _ hga, ?_, ?_, ?_, rfl⟩
  · rw [hasKey_append]
    rw [hasKey_eraseKey_ne _ _ _ (by decide), hasKey_eraseKey_self]
    simp [hasKey]
  · rw [hasKey_append, hasKey_eraseKey_self]
    simp [hasKey]
  · rw [hasKey_append]
    rw [hasKey_eraseKey_ne _ _ _ (by decide), hasKey_eraseKey_ne _ _ _ (by decide),
      hasKey_eraseKey_self]
    simp [hasKey]

/-- A concrete legacy flat document used to witness C9. -/
def c9demoDoc : JFields :=
  [("version", Json.jnum 7), ("updateTime", Json.jnum 9),
   ("replaceDir", Json.jarr [Json.jstr "a"])]

/-- Witness for C9: the migration theorem applied to a concrete legacy
document. -/
theorem C9_witness :
    hasKey c9demoDoc "replaceDir" = true
      ∧ hasKey c9demoDoc "authors" = false
      ∧ lookupKey c9demoDoc "version" = some (Json.jnum 7)
      ∧ lookupKey c9demoDoc "updateTime" = some (Json.jnum 9)
      ∧ lookupKey c9demoDoc "replaceDir" = some (Json.jarr [Json.jstr "a"])
      ∧ (lookupKey (load_data_json c9demoDoc).doc "authors"
            = some (Json.jobj [("replace",
                Json.jobj [("version", Json.jnum 7), ("updateTime", Json.jnum 9),
                           ("dirs", Json.jarr [Json.jstr "a"])])])
          ∧ hasKey (load_data_json c9demoDoc).doc "version" = false
          ∧ hasKey (load_data_json c9demoDoc).doc "updateTime" = false
          ∧ hasKey (load_data_json c9demoDoc).doc "replaceDir" = false
          ∧ (load_data_json c9demoDoc).saves = [(load_data_json c9demoDoc).doc]) :=
  ⟨rfl, rfl, rfl, rfl, rfl,
    C9_legacy_migration c9demoDoc (Json.jnum 7) (Json.jnum 9) (Json.jarr [Json.jstr "a"])
      rfl rfl rfl rfl rfl⟩

/-! ## C5: change-detection drift tolerance -/

/-- Bridge between the boolean per-child check of `leafChanged` and its
propositional reading. -/
theorem childCheck_iff (o : Option Rat) (q : Rat) :
    (match o with
      | none => true
      | some m => decide (abs (q - m) > 1)) = true
      ↔ ∀ m, o = some m → abs (q - m) > 1 := by
  cases o <;> simp

/-- Claim C5: the per-leaf diff of `check_version_and_updates` marks a leaf
already present in the snapshot as needing update exactly when the
aggregate mtimes drift by more than 1 second, or some current child is
missing from the stored child map or drifts from it by more than 1 second,
or some stored child path is absent from the current listing; in
particular, when every compared timestamp agrees within 1 second and the
child sets agree, the leaf is not marked. -/
theorem C5_change_detection_drift (e_mtime : Rat) (e_subs : List SubfileInfo)
    (c_mtime : Rat) (c_subs : List SubfileInfo) :
    leafChanged e_mtime e_subs c_mtime c_subs = true
      ↔ (abs (c_mtime - e_mtime) > 1
          ∨ (∃ sf ∈ c_subs, ∀ m, lookupLastMtime e_subs sf.path = some m
              → abs (sf.mtime - m) > 1)
          ∨ (∃ ef ∈ e_subs, ∀ sf ∈ c_subs, sf.path ≠ ef.path)) := by
  by_cases h : abs (c_mtime - e_mtime) > 1
  · simp [leafChanged, h]
  · simp only [leafChanged, h, if_false, Bool.or_eq_true, List.any_eq_true, false_or]
    constructor
    · rintro (⟨sf, hsf, hm⟩ | ⟨ef, hef, hne⟩)
      · exact Or.inl ⟨sf, hsf, (childCheck_iff _ _).mp hm⟩
      · refine Or.inr ⟨ef, hef, ?_⟩
        intro sf hsf
        simp only [Bool.not_eq_true', List.any_eq_false] at hne
        simpa using hne sf hsf
    · rintro (⟨sf, hsf, hm⟩ | ⟨ef, hef, hne⟩)
      · exact Or.inl ⟨sf, hsf, (childCheck_iff _ _).mpr hm⟩
      · refine Or.inr ⟨ef, hef, ?_⟩
        simp only [Bool.not_eq_true', List.any_eq_false]
        intro sf hsf
        simpa using hne sf hsf

/-! ## C8: catalog resolution -/

/-- First catalog entry of the C8 counterexample: it matches the queried
identifier but carries an empty `readableName`. -/
def c8entry1 : CatalogBundle := ⟨some (.str "x"), some "", some "h1"⟩

/-- Second catalog entry of the C8 counterexample: a later match with a
truthy `readableName`. -/
def c8entry2 : CatalogBundle := ⟨some (.str "x"), some "r2", some "h2"⟩

/-- Counterexample to C8 as stated: the first entry of the catalog matches
the identifier, yet the scan does not return that entry's
readableName+".bundle"/hash pair — it skips the falsy `readableName` and
returns the data of the second matching entry instead. -/
theorem C8_counterexample :
    [c8entry1, c8entry2].get? 0 = some c8entry1
      ∧ c8entry1.bundleName = some (.str "x")
      ∧ get_resource_bundle_name_and_hash (.str "x") [c8entry1, c8entry2]
          = some ("r2.bundle", some "h2")
      ∧ get_resource_bundle_name_and_hash (.str "x") [c8entry1, c8entry2]
          ≠ some ((c8entry1.readableName.getD "") ++ ".bundle", c8entry1.hash) := by
  refine ⟨rfl, rfl, rfl, ?_⟩
  decide

/-- Claim C8 (amended): `get_resource_bundle_name_and_hash` linear-scans
the bundles and returns, for the first entry whose `bundleName` equals the
identifier and whose `readableName` is truthy (present and non-empty), the
pair of that entry's `readableName` with the fixed ".bundle" suffix and
that entry's hash; matching entries with a falsy `readableName` are passed
over, and when no such entry exists the result is `none` (no exception). -/
theorem C8_catalog_resolution (idv : StrOrInt) (bundles : List CatalogBundle) :
    get_resource_bundle_name_and_hash idv bundles =
      (bundles.find? (fun b =>
          decide (b.bundleName = some idv) && truthyName b.readableName)).map
        (fun b => (b.readableName.getD "" ++ ".bundle", b.hash)) := by
  induction bundles with
  | nil => rfl
  | cons b rest ih =>
    by_cases h1 : b.bundleName = some idv
    · cases hr : b.readableName with
      | none =>
        rw [show get_resource_bundle_name_and_hash idv (b :: rest)
            = get_resource_bundle_name_and_hash idv rest by
          simp [get_resource_bundle_name_and_hash, h1, hr]]
        rw [List.find?_cons_of_neg _ (by simp [truthyName, hr])]
        exact ih
      | some r =>
        by_cases h2 : r = ""
        · rw [show get_resource_bundle_name_and_hash idv (b :: rest)
              = get_resource_bundle_name_and_hash idv rest by
            simp [get_resource_bundle_name_and_hash, h1, hr, h2]]
          rw [List.find?_cons_of_neg _ (by simp [truthyName, hr, h2])]
          exact ih
        · rw [show get_resource_bundle_name_and_hash idv (b :: rest)
              = some (r ++ ".bundle", b.hash) by
            simp [get_resource_bundle_name_and_hash, h1, hr, h2]]
          rw [List.find?_cons_of_pos _ (by simp [truthyName, hr, h2, h1])]
          simp [hr]
    · rw [show get_resource_bundle_name_and_hash idv (b :: rest)
          = get_resource_bundle_name_and_hash idv rest by
        simp [get_resource_bundle_name_and_hash, h1]]
      rw [List.find?_cons_of_neg _ (by simp [h1])]
      exact ih

/-! ## C2: ranking loop crashes on a full tie between distinct rows -/

/-- First row of the C2 failing input: an exact match on both fields. -/
def c2row1 : CharacterData := ⟨"ab", "x", "1", "", ""⟩

/-- Second row of the C2 failing input: an equally exact match, distinct
from the first row (different idle value). -/
def c2row2 : CharacterData := ⟨"ab", "x", "2", "", ""⟩

/-- Claim C2 evaluation at the failing input: both rows survive
elimination with identical scores (sum 4, max 2), the rows are distinct,
and instead of keeping the first-encountered candidate the selection
raises `TypeError` (Python compares the `CharacterData` objects inside the
tuples, and the dataclass defines no ordering), so `get_idle` does not
return the first candidate's value. -/
theorem C2_tie_raises_typeerror :
    get_idle [c2row1, c2row2] "ab" "x" = .error "TypeError"
      ∧ matchScore (pyNorm "ab") (pyNorm "x") c2row1 = (2, 2)
      ∧ matchScore (pyNorm "ab") (pyNorm "x") c2row2 = (2, 2)
      ∧ c2row1 ≠ c2row2
      ∧ get_idle [c2row1, c2row2] "ab" "x" ≠ .ok (maybe_to_int c2row1.idle) := by
  refine ⟨rfl, rfl, rfl, by decide, ?_⟩
  intro h
  rw [show get_idle [c2row1, c2row2] "ab" "x" = .error "TypeError" from rfl] at h
  exact Except.noConfusion h

/-! ## C10: numeric coercion of the returned identifier -/

/-- Specification of `_maybe_to_int`: the result is an int exactly when
the stripped input is an optionally signed digit run, and otherwise it is
the stripped string unchanged. -/
theorem maybe_to_int_spec (s : String) :
    ((∃ n, maybe_to_int s = StrOrInt.int n)
        ↔ isSignedDigits (pyStrip s.toList) = true)
      ∧ (isSignedDigits (pyStrip s.toList) = false
          → maybe_to_int s = StrOrInt.str (String.mk (pyStrip s.toList))) := by
  unfold maybe_to_int
  by_cases h : isSignedDigits (pyStrip s.toList) <;>
    simp only [String.toList] at h <;> simp [String.toList, h]

/-- Inversion of a successful `get_idle`: the value is `_maybe_to_int` of
the selected candidate's idle field. -/
theorem get_idle_ok_inv (rows : List CharacterData) (ch co : String) (v : StrOrInt)
    (h : get_idle rows ch co = .ok v) :
    ∃ b : Cand, selectLoop (pyNorm ch) (pyNorm co) none rows = .ok (some b)
      ∧ v = maybe_to_int b.2.2.idle := by
  unfold get_idle at h
  by_cases he : rows.isEmpty
  · simp [he] at h
  · simp only [he, if_false] at h
    cases hs : selectLoop (pyNorm ch) (pyNorm co) none rows with
    | error e => rw [hs] at h; exact Except.noConfusion h
    | ok o =>
      cases o with
      | none => rw [hs] at h; exact Except.noConfusion h
      | some b =>
        rw [hs] at h
        exact ⟨b, rfl, (Except.ok.inj h).symm⟩

/-- Inversion of a successful `get_cutscene`: the value is `_maybe_to_int`
of the selected candidate's cutscene field. -/
theorem get_cutscene_ok_inv (rows : List CharacterData) (ch co : String) (v : StrOrInt)
    (h : get_cutscene rows ch co = .ok v) :
    ∃ b : Cand, selectLoop (pyNorm ch) (pyNorm co) none rows = .ok (some b)
      ∧ v = maybe_to_int b.2.2.cutscene := by
  unfold get_cutscene at h
  by_cases he : rows.isEmpty
  · simp [he] at h
  · simp only [he, if_false] at h
    cases hs : selectLoop (pyNorm ch) (pyNorm co) none rows with
    | error e => rw [hs] at h; exact Except.noConfusion h
    | ok o =>
      cases o with
      | none => rw [hs] at h; exact Except.noConfusion h
      | some b =>
        rw [hs] at h
        exact ⟨b, rfl, (Except.ok.inj h).symm⟩

/-- Claim C10: whenever `get_idle` (or `get_cutscene`) returns
successfully, the returned identifier is an int exactly when the selected
row's stored value, stripped of surrounding whitespace, is an optionally
signed run of decimal digits; otherwise it is the stripped string
unchanged. -/
theorem C10_numeric_coercion (rows : List CharacterData) (ch co : String) :
    (∀ v, get_idle rows ch co = .ok v →
      ∃ b : Cand, selectLoop (pyNorm ch) (pyNorm co) none rows = .ok (some b)
        ∧ v = maybe_to_int b.2.2.idle
        ∧ ((∃ n, v = StrOrInt.int n) ↔ isSignedDigits (pyStrip b.2.2.idle.toList) = true)
        ∧ (isSignedDigits (pyStrip b.2.2.idle.toList) = false
            → v = StrOrInt.str (String.mk (pyStrip b.2.2.idle.toList))))
      ∧ (∀ v, get_cutscene rows ch co = .ok v →
        ∃ b : Cand, selectLoop (pyNorm ch) (pyNorm co) none rows = .ok (some b)
          ∧ v = maybe_to_int b.2.2.cutscene
          ∧ ((∃ n, v = StrOrInt.int n) ↔ isSignedDigits (pyStrip b.2.2.cutscene.toList) = true)
          ∧ (isSignedDigits (pyStrip b.2.2.cutscene.toList) = false
              → v = StrOrInt.str (String.mk (pyStrip b.2.2.cutscene.toList)))) := by
  constructor
  · intro v h
    obtain ⟨b, hb, hv⟩ := get_idle_ok_inv rows ch co v h
    refine ⟨b, hb, hv, ?_, ?_⟩
    · rw [hv]
      exact (maybe_to_int_spec b.2.2.idle).1
    · intro hns
      rw [hv]
      exact (maybe_to_int_spec b.2.2.idle).2 hns
  · intro v h
    obtain ⟨b, hb, hv⟩ := get_cutscene_ok_inv rows ch co v h
    refine ⟨b, hb, hv, ?_, ?_⟩
    · rw [hv]
      exact (maybe_to_int_spec b.2.2.cutscene).1
    · intro hns
      rw [hv]
      exact (maybe_to_int_spec b.2.2.cutscene).2 hns

/-- Concrete row list used to witness C10. -/
def c10rows : List CharacterData :=
  [⟨"Hero", "CostumeA", " 1001 ", "notanumber", ""⟩]

/-- Witness for C10: the coercion theorem applied to a concrete run whose
idle value is numeric after stripping (the cutscene value is not). -/
theorem C10_witness :
    get_idle c10rows "hero" "costumea" = .ok (StrOrInt.int 1001)
      ∧ get_cutscene c10rows "hero" "costumea" = .ok (StrOrInt.str "notanumber")
      ∧ (∃ b : Cand, selectLoop (pyNorm "hero") (pyNorm "costumea") none c10rows
            = .ok (some b)
          ∧ StrOrInt.int 1001 = maybe_to_int b.2.2.idle
          ∧ ((∃ n, StrOrInt.int 1001 = StrOrInt.int n)
              ↔ isSignedDigits (pyStrip b.2.2.idle.toList) = true)
          ∧ (isSignedDigits (pyStrip b.2.2.idle.toList) = false
              → StrOrInt.int 1001 = StrOrInt.str (String.mk (pyStrip b.2.2.idle.toList)))) :=
  ⟨rfl, rfl, (C10_numeric_coercion c10rows "hero" "costumea").1 (StrOrInt.int 1001) rfl⟩

/-! ## C3: an exact match on both fields always wins -/

/-- A successful strict tuple comparison implies the new sum is at least
the old one. -/
theorem candGt_true_sum_le (c b : Cand) (h : candGt c b = some true) : b.1 ≤ c.1 := by
  unfold candGt at h
  by_cases h1 : c.1 = b.1
  · exact le_of_eq h1.symm
  · rw [if_pos h1] at h
    have := Option.some.inj h
    have hgt : c.1 > b.1 := of_decide_eq_true this
    exact le_of_lt hgt

/-- A failed strict tuple comparison implies the new sum is at most the
old one. -/
theorem candGt_false_sum_le (c b : Cand) (h : candGt c b = some false) : c.1 ≤ b.1 := by
  unfold candGt at h
  by_cases h1 : c.1 = b.1
  · exact le_of_eq h1
  · rw [if_pos h1] at h
    have := Option.some.inj h
    have hngt : ¬(c.1 > b.1) := of_decide_eq_false this
    exact le_of_not_lt hngt

/-- The selection loop never decreases the sum component of the running
best candidate, and once a best candidate exists the loop keeps one. -/
theorem selectLoop_sum_mono (nc ncos : String) (rows : List CharacterData) :
    ∀ (b : Cand) (res : Option Cand),
      selectLoop nc ncos (some b) rows = .ok res →
      ∃ out, res = some out ∧ b.1 ≤ out.1 := by
  induction rows with
  | nil =>
    intro b res h
    exact ⟨b, (Except.ok.inj h).symm, le_refl _⟩
  | cons r rest ih =>
    intro b res h
    rw [selectLoop] at h
    by_cases hneg : (decide ((matchScore nc ncos r).1 < 0)
        || decide ((matchScore nc ncos r).2 < 0)) = true
    · rw [if_pos hneg] at h
      exact ih b res h
    · rw [if_neg (by simpa using hneg)] at h
      dsimp only at h
      cases hg : candGt ((matchScore nc ncos r).1 + (matchScore nc ncos r).2,
          max (matchScore nc ncos r).1 (matchScore nc ncos r).2, r) b with
      | none =>
        rw [hg] at h
        exact Except.noConfusion h
      | some flag =>
        cases flag with
        | true =>
          rw [hg] at h
          obtain ⟨out, hres, hle⟩ := ih _ res h
          exact ⟨out, hres, le_trans (candGt_true_sum_le _ _ hg) hle⟩
        | false =>
          rw [hg] at h
          exact ih b res h

/-- Every surviving candidate's score sum is dominated by the sum of the
finally selected candidate. -/
theorem selectLoop_mem_sum_le (nc ncos : String) (rows : List CharacterData) :
    ∀ (best res : Option Cand) (r : CharacterData),
      r ∈ rows →
      ¬((matchScore nc ncos r).1 < 0) → ¬((matchScore nc ncos r).2 < 0) →
      selectLoop nc ncos best rows = .ok res →
      ∃ out, res = some out
        ∧ (matchScore nc ncos r).1 + (matchScore nc ncos r).2 ≤ out.1 := by
  induction rows with
  | nil =>
    intro best res r hr
    exact absurd hr (List.not_mem_nil r)
  | cons r0 rest ih =>
    intro best res r hr hn1 hn2 h
    rw [selectLoop] at h
    rcases List.mem_cons.mp hr with hEq | hMem
    · subst hEq
      rw [if_neg (by simp [hn1, hn2])] at h
      cases best with
      | none =>
        dsimp only at h
        exact selectLoop_sum_mono nc ncos rest _ res h
      | some b =>
        dsimp only at h
        cases hg : candGt ((matchScore nc ncos r).1 + (matchScore nc ncos r).2,
            max (matchScore nc ncos r).1 (matchScore nc ncos r).2, r) b with
        | none =>
          rw [hg] at h
          exact Except.noConfusion h
        | some flag =>
          cases flag with
          | true =>
            rw [hg] at h
            exact selectLoop_sum_mono nc ncos rest _ res h
          | false =>
            rw [hg] at h
            obtain ⟨out, hres, hle⟩ := selectLoop_sum_mono nc ncos rest _ res h
            exact ⟨out, hres, le_trans (candGt_false_sum_le _ _ hg) hle⟩
    · by_cases hneg : (decide ((matchScore nc ncos r0).1 < 0)
          || decide ((matchScore nc ncos r0).2 < 0)) = true
      · rw [if_pos hneg] at h
        exact ih best res r hMem hn1 hn2 h
      · rw [if_neg (by simpa using hneg)] at h
        cases best with
        | none =>
          dsimp only at h
          exact ih _ res r hMem hn1 hn2 h
        | some b =>
          dsimp only at h
          cases hg : candGt ((matchScore nc ncos r0).1 + (matchScore nc ncos r0).2,
              max (matchScore nc ncos r0).1 (matchScore nc ncos r0).2, r0) b with
          | none =>
            rw [hg] at h
            exact Except.noConfusion h
          | some flag =>
            cases flag with
            | true =>
              rw [hg] at h
              exact ih _ res r hMem hn1 hn2 h
            | false =>
              rw [hg] at h
              exact ih _ res r hMem hn1 hn2 h

/-- Well-formedness of a running candidate: its sum component is the score
sum of its row. -/
def candWF (nc ncos : String) (c : Cand) : Prop :=
  c.1 = (matchScore nc ncos c.2.2).1 + (matchScore nc ncos c.2.2).2

/-- The selection loop only ever stores candidates whose sum component is
the score sum of the stored row. -/
theorem selectLoop_wf (nc ncos : String) (rows : List CharacterData) :
    ∀ (best : Option Cand) (out : Cand),
      (∀ b, best = some b → candWF nc ncos b) →
      selectLoop nc ncos best rows = .ok (some out) → candWF nc ncos out := by
  induction rows with
  | nil =>
    intro best out hwf h
    exact hwf out (Except.ok.inj h)
  | cons r0 rest ih =>
    intro best out hwf h
    rw [selectLoop] at h
    by_cases hneg : (decide ((matchScore nc ncos r0).1 < 0)
        || decide ((matchScore nc ncos r0).2 < 0)) = true
    · rw [if_pos hneg] at h
      exact ih best out hwf h
    · rw [if_neg (by simpa using hneg)] at h
      cases best with
      | none =>
        dsimp only at h
        refine ih _ out ?_ h
        intro b hb
        cases hb
        rfl
      | some b =>
        dsimp only at h
        cases hg : candGt ((matchScore nc ncos r0).1 + (matchScore nc ncos r0).2,
            max (matchScore nc ncos r0).1 (matchScore nc ncos r0).2, r0) b with
        | none =>
          rw [hg] at h
          exact Except.noConfusion h
        | some flag =>
          cases flag with
          | true =>
            rw [hg] at h
            refine ih _ out ?_ h
            intro c hc
            cases hc
            rfl
          | false =>
            rw [hg] at h
            exact ih _ out hwf h

/-- The field scorer never exceeds 2. -/
theorem scoreOne_le_two (a b : String) : scoreOne a b ≤ 2 := by
  unfold scoreOne
  split_ifs <;> norm_num

/-- The field scorer yields 2 exactly on equal strings. -/
theorem scoreOne_eq_two_iff (a b : String) : scoreOne a b = 2 ↔ a = b := by
  unfold scoreOne
  split_ifs with h1 h2 h3
  · simp [h1]
  · norm_num [h1]
  · norm_num [h1]
  · norm_num [h1]

/-- Claim C3: when some row matches the query exactly on both normalised
fields, the selection loop (shared by `get_idle` and `get_cutscene`) never
selects a row for which either field matches only by prefix or substring:
any returned candidate also matches both fields exactly. -/
theorem C3_exact_match_wins (rows : List CharacterData) (character costume : String)
    (r : CharacterData) (out : Cand)
    (hr : r ∈ rows)
    (hch : pyNorm r.character = pyNorm character)
    (hco : pyNorm r.costume = pyNorm costume)
    (hsel : selectLoop (pyNorm character) (pyNorm costume) none rows = .ok (some out)) :
    pyNorm out.2.2.character = pyNorm character
      ∧ pyNorm out.2.2.costume = pyNorm costume := by
  have hsc : matchScore (pyNorm character) (pyNorm costume) r = (2, 2) := by
    unfold matchScore
    rw [hch, hco]
    simp [scoreOne]
  obtain ⟨out2, hres, hle⟩ :=
    selectLoop_mem_sum_le (pyNorm character) (pyNorm costume) rows none (some out) r hr
      (by rw [hsc]; norm_num) (by rw [hsc]; norm_num) hsel
  have hout : out2 = out := (Option.some.inj hres).symm
  subst hout
  rw [hsc] at hle
  have hwf := selectLoop_wf (pyNorm character) (pyNorm costume) rows none out2
    (by intro b hb; exact Option.noConfusion hb) hsel
  unfold candWF at hwf
  unfold matchScore at hwf
  have h1 := scoreOne_le_two (pyNorm out2.2.2.character) (pyNorm character)
  have h2 := scoreOne_le_two (pyNorm out2.2.2.costume) (pyNorm costume)
  have hs1 : scoreOne (pyNorm out2.2.2.character) (pyNorm character) = 2 := by omega
  have hs2 : scoreOne (pyNorm out2.2.2.costume) (pyNorm costume) = 2 := by omega
  exact ⟨(scoreOne_eq_two_iff _ _).mp hs1, (scoreOne_eq_two_iff _ _).mp hs2⟩

/-- Concrete rows witnessing C3: a prefix-matching row precedes the exact
row. -/
def c3rows : List CharacterData :=
  [⟨"Hero B", "X", "7", "", ""⟩, ⟨"Hero", "X", "8", "", ""⟩]

/-- Witness for C3: on the concrete rows, the exact row is selected over
the earlier prefix-matching row. -/
theorem C3_witness :
    (⟨"Hero", "X", "8", "", ""⟩ : CharacterData) ∈ c3rows
      ∧ pyNorm (⟨"Hero", "X", "8", "", ""⟩ : CharacterData).character = pyNorm "hero"
      ∧ pyNorm (⟨"Hero", "X", "8", "", ""⟩ : CharacterData).costume = pyNorm "x"
      ∧ selectLoop (pyNorm "hero") (pyNorm "x") none c3rows
          = .ok (some (4, 2, ⟨"Hero", "X", "8", "", ""⟩))
      ∧ pyNorm (4, 2, (⟨"Hero", "X", "8", "", ""⟩ : CharacterData)).2.2.character
          = pyNorm "hero"
      ∧ pyNorm (4, 2, (⟨"Hero", "X", "8", "", ""⟩ : CharacterData)).2.2.costume
          = pyNorm "x" :=
  ⟨by decide, rfl, rfl, rfl,
    C3_exact_match_wins c3rows "hero" "x" ⟨"Hero", "X", "8", "", ""⟩
      (4, 2, ⟨"Hero", "X", "8", "", ""⟩) (by decide) rfl rfl rfl⟩

/-! ## C1: co-target propagation -/

/-- A created task records exactly the `should_execute` flag it was given. -/
theorem create_replace_task_should_execute (env : PlannerEnv)
    (char costume type_name : String) (ch3 : List FSNode) (relPath : String)
    (se : Bool) (t : ReplaceTask)
    (h : create_replace_task env char costume type_name ch3 relPath se = some t) :
    t.should_execute = se := by
  unfold create_replace_task at h
  dsimp only at h
  split at h
  · exact Option.noConfusion h
  · split at h
    · exact Option.noConfusion h
    · split at h
      · exact Option.noConfusion h
      · cases Option.some.inj h
        rfl

/-- An executable task's target is collected into
`executable_target_dirs`. -/
theorem mem_executableTargetDirs (l : List ReplaceTask) (t : ReplaceTask)
    (ht : t ∈ l) (hse : t.should_execute = true) :
    t.target_dir ∈ executableTargetDirs l := by
  unfold executableTargetDirs
  exact List.mem_map.mpr ⟨t, List.mem_filter.mpr ⟨ht, by simp [hse]⟩, rfl⟩

/-- After the propagation pass, a task is executable exactly when its
target path belongs to the pre-pass executable target set. -/
theorem mem_propagate_should_execute (l : List ReplaceTask) (t : ReplaceTask)
    (ht : t ∈ propagateCoTargets l) :
    t.should_execute = decide (t.target_dir ∈ executableTargetDirs l) := by
  unfold propagateCoTargets at ht
  obtain ⟨t0, ht0, heq⟩ := List.mem_map.mp ht
  by_cases hse : t0.should_execute = true
  · have hmem := mem_executableTargetDirs l t0 ht0 hse
    have : t = t0 := by
      rw [← heq]
      simp [hse]
    subst this
    rw [hse]
    simp [hmem]
  · rw [Bool.not_eq_true] at hse
    by_cases hmem : t0.target_dir ∈ executableTargetDirs l
    · have : t = { t0 with should_execute := true } := by
        rw [← heq]
        simp [hse, hmem]
      subst this
      simp [hmem]
    · have : t = t0 := by
        rw [← heq]
        simp [hse, hmem]
      subst this
      rw [hse]
      simp [hmem]

/-- Inversion of membership in the planner's base task list: every task
comes from a three-level leaf directory that is not empty, with the
`should_execute` flag computed from `specific_dirs`. -/
theorem mem_buildTasksBase (env : PlannerEnv) (children : List FSNode)
    (sd : Option (List String)) (t : ReplaceTask)
    (ht : t ∈ buildTasksBase env children sd) :
    ∃ char ch1 costume ch2 type_name ch3,
      FSNode.dir char ch1 ∈ children
        ∧ FSNode.dir costume ch2 ∈ ch1
        ∧ FSNode.dir type_name ch3 ∈ ch2
        ∧ is_directory_empty ch3 = false
        ∧ create_replace_task env char costume type_name ch3
            (leafRelPath env.rootRel char costume type_name)
            (leafShouldExecute sd (leafRelPath env.rootRel char costume type_name))
          = some t := by
  unfold buildTasksBase at ht
  obtain ⟨n1, hn1, ht⟩ := List.mem_flatMap.mp ht
  cases n1 with
  | file _ _ => exact absurd ht (List.not_mem_nil t)
  | dir char ch1 =>
    dsimp only at ht
    obtain ⟨n2, hn2, ht⟩ := List.mem_flatMap.mp ht
    cases n2 with
    | file _ _ => exact absurd ht (List.not_mem_nil t)
    | dir costume ch2 =>
      dsimp only at ht
      obtain ⟨n3, hn3, hc⟩ := List.mem_filterMap.mp ht
      cases n3 with
      | file _ _ => exact Option.noConfusion hc
      | dir type_name ch3 =>
        dsimp only at hc
        by_cases hemp : is_directory_empty ch3 = true
        · rw [if_pos hemp] at hc
          exact Option.noConfusion hc
        · rw [Bool.not_eq_true] at hemp
          rw [if_neg (by simp [hemp])] at hc
          exact ⟨char, ch1, costume, ch2, type_name, ch3, hn1, hn2, hn3, hemp, hc⟩

/-- When `specific_dirs` is falsy, every base task is executable. -/
theorem buildTasksBase_inactive_exec (env : PlannerEnv) (children : List FSNode)
    (sd : Option (List String)) (hact : specificActive sd = false) :
    ∀ t ∈ buildTasksBase env children sd, t.should_execute = true := by
  intro t ht
  obtain ⟨char, ch1, costume, ch2, type_name, ch3, _, _, _, _, hc⟩ :=
    mem_buildTasksBase env children sd t ht
  rw [create_replace_task_should_execute _ _ _ _ _ _ _ _ hc]
  unfold leafShouldExecute
  rw [hact]
  rfl

/-- Claim C1: after `_build_replace_mapping` finishes (with a non-empty
`specific_dirs` list or with none), any two tasks of the returned list that
share a target path have equal `should_execute`. -/
theorem C1_cotarget_propagation (env : PlannerEnv) (children : List FSNode)
    (sd : Option (List String)) (t1 t2 : ReplaceTask)
    (h1 : t1 ∈ build_replace_mapping env children sd)
    (h2 : t2 ∈ build_replace_mapping env children sd)
    (htd : t1.target_dir = t2.target_dir) :
    t1.should_execute = t2.should_execute := by
  unfold build_replace_mapping at h1 h2
  by_cases hact : specificActive sd = true
  · rw [if_pos hact] at h1 h2
    rw [mem_propagate_should_execute _ _ h1, mem_propagate_should_execute _ _ h2, htd]
  · rw [Bool.not_eq_true] at hact
    rw [if_neg (by simp [hact])] at h1 h2
    rw [buildTasksBase_inactive_exec env children sd hact t1 h1,
      buildTasksBase_inactive_exec env children sd hact t2 h2]

/-- Concrete planner environment for the C1 witness: both leaves resolve
to identifier 1001 and hence to the same container and hash. -/
def c1env : PlannerEnv where
  idleOf := fun c co => if c = "Hero" && co = "CostumeA" then some (.int 1001) else none
  cutsceneOf := fun c co => if c = "Hero" && co = "CostumeB" then some (.int 1001) else none
  catalog := fun v => if v = .int 1001 then some ("common-x.bundle", "abc") else none
  downloadedRoot := "sourcedata"
  targetRoot := "target/replace"
  rootRel := "workspace/replace"

/-- Concrete replacement tree for the C1 witness. -/
def c1fs : List FSNode :=
  [FSNode.dir "Hero"
    [FSNode.dir "CostumeA" [FSNode.dir "IDLE" [FSNode.file "f.skel" "s"]],
     FSNode.dir "CostumeB" [FSNode.dir "CUTSCENE" [FSNode.file "g.png" "p"]]]]

/-- The update list for the C1 witness: only the `CostumeA` leaf. -/
def c1sd : Option (List String) := some ["workspace/replace/Hero/CostumeA/IDLE"]

/-- The task created for the `CostumeA` leaf (initially executable). -/
def c1task1 : ReplaceTask :=
  { char := "Hero", costume := "CostumeA", type := "IDLE",
    replace_dir := "workspace/replace/Hero/CostumeA/IDLE",
    data_name := "common-x.bundle",
    downloaded_dir := "sourcedata/common-x.bundle",
    target_dir := "target/replace/1001/abc/__data",
    mod_name := "", idle_or_cutscene_value := .int 1001,
    hash_id := "abc", should_execute := true }

/-- The task created for the `CostumeB` leaf (initially not executable,
made executable by co-target propagation). -/
def c1task2 : ReplaceTask :=
  { char := "Hero", costume := "CostumeB", type := "CUTSCENE",
    replace_dir := "workspace/replace/Hero/CostumeB/CUTSCENE",
    data_name := "common-x.bundle",
    downloaded_dir := "sourcedata/common-x.bundle",
    target_dir := "target/replace/1001/abc/__data",
    mod_name := "", idle_or_cutscene_value := .int 1001,
    hash_id := "abc", should_execute := true }

/-- Evaluation of the planner on the C1 witness data: the co-target leaf
outside the update list comes out executable. -/
theorem c1_mapping_eval : build_replace_mapping c1env c1fs c1sd = [c1task1, c1task2] := by
  have hU1 : upperStr "IDLE" = "IDLE" := rfl
  have hU2 : upperStr "CUTSCENE" = "CUTSCENE" := rfl
  have hN1 : normSlash "workspace/replace/Hero/CostumeA/IDLE"
      = "workspace/replace/Hero/CostumeA/IDLE" := rfl
  have hN2 : normSlash "workspace/replace/Hero/CostumeB/CUTSCENE"
      = "workspace/replace/Hero/CostumeB/CUTSCENE" := rfl
  have hS : strOrIntStr (.int 1001) = "1001" := rfl
  have hE1 : is_directory_empty [FSNode.file "f.skel" "s"] = false := by
    simp [is_directory_empty, listHasFile]
  have hE2 : is_directory_empty [FSNode.file "g.png" "p"] = false := by
    simp [is_directory_empty, listHasFile]
  simp [build_replace_mapping, buildTasksBase, c1env, c1fs, c1sd, c1task1, c1task2,
    create_replace_task, leafShouldExecute, leafRelPath, specificActive, sdSetOf,
    strOrIntFalsy, firstSubdirName, propagateCoTargets, executableTargetDirs,
    hU1, hU2, hN1, hN2, hS, hE1, hE2]

/-- Witness for C1: two leaves resolving to the same target path, one in
the update list and one not, both end up executable, and the propagation
theorem applies to them. -/
theorem C1_witness :
    c1task1 ∈ build_replace_mapping c1env c1fs c1sd
      ∧ c1task2 ∈ build_replace_mapping c1env c1fs c1sd
      ∧ c1task1.target_dir = c1task2.target_dir
      ∧ c1task1.should_execute = c1task2.should_execute := by
  refine ⟨?_, ?_, rfl, ?_⟩
  · rw [c1_mapping_eval]
    exact List.mem_cons_self _ _
  · rw [c1_mapping_eval]
    exact List.mem_cons_of_mem _ (List.mem_cons_self _ _)
  · exact C1_cotarget_propagation c1env c1fs c1sd c1task1 c1task2
      (by rw [c1_mapping_eval]; exact List.mem_cons_self _ _)
      (by rw [c1_mapping_eval]; exact List.mem_cons_of_mem _ (List.mem_cons_self _ _))
      rfl

/-! ## C6: empty leaves are excluded from task generation -/

/-- A created task records the leaf coordinates it was created for. -/
theorem create_replace_task_fields (env : PlannerEnv)
    (char costume type_name : String) (ch3 : List FSNode) (relPath : String)
    (se : Bool) (t : ReplaceTask)
    (h : create_replace_task env char costume type_name ch3 relPath se = some t) :
    t.char = char ∧ t.costume = costume ∧ t.type = type_name := by
  unfold create_replace_task at h
  dsimp only at h
  split at h
  · exact Option.noConfusion h
  · split at h
    · exact Option.noConfusion h
    · split at h
      · exact Option.noConfusion h
      · cases Option.some.inj h
        exact ⟨rfl, rfl, rfl⟩

/-- The propagation pass only toggles `should_execute`: every output task
keeps the leaf coordinates of some input task. -/
theorem mem_propagate_src (l : List ReplaceTask) (t : ReplaceTask)
    (ht : t ∈ propagateCoTargets l) :
    ∃ t0 ∈ l, t.char = t0.char ∧ t.costume = t0.costume ∧ t.type = t0.type := by
  unfold propagateCoTargets at ht
  obtain ⟨t0, ht0, heq⟩ := List.mem_map.mp ht
  refine ⟨t0, ht0, ?_⟩
  split at heq
  · rw [← heq]
    exact ⟨rfl, rfl, rfl⟩
  · rw [← heq]
    exact ⟨rfl, rfl, rfl⟩

/-- Claim C6: every task produced by `_build_replace_mapping` (with any
`specific_dirs` argument) stems from a three-level leaf directory that
holds at least one regular file somewhere beneath it; a leaf with no file
anywhere beneath it therefore yields no task. -/
theorem C6_empty_leaf_excluded (env : PlannerEnv) (children : List FSNode)
    (sd : Option (List String)) (t : ReplaceTask)
    (ht : t ∈ build_replace_mapping env children sd) :
    ∃ ch1 ch2 ch3,
      FSNode.dir t.char ch1 ∈ children
        ∧ FSNode.dir t.costume ch2 ∈ ch1
        ∧ FSNode.dir t.type ch3 ∈ ch2
        ∧ is_directory_empty ch3 = false := by
  unfold build_replace_mapping at ht
  by_cases hact : specificActive sd = true
  · rw [if_pos hact] at ht
    obtain ⟨t0, ht0, hch, hco, hty⟩ := mem_propagate_src _ _ ht
    obtain ⟨char, ch1, costume, ch2, tn, ch3, hn1, hn2, hn3, hemp, hc⟩ :=
      mem_buildTasksBase env children sd t0 ht0
    obtain ⟨hf1, hf2, hf3⟩ := create_replace_task_fields _ _ _ _ _ _ _ _ hc
    refine ⟨ch1, ch2, ch3, ?_, ?_, ?_, hemp⟩
    · rw [hch, hf1]
      exact hn1
    · rw [hco, hf2]
      exact hn2
    · rw [hty, hf3]
      exact hn3
  · rw [if_neg (by simpa using hact)] at ht
    obtain ⟨char, ch1, costume, ch2, tn, ch3, hn1, hn2, hn3, hemp, hc⟩ :=
      mem_buildTasksBase env children sd t ht
    obtain ⟨hf1, hf2, hf3⟩ := create_replace_task_fields _ _ _ _ _ _ _ _ hc
    refine ⟨ch1, ch2, ch3, ?_, ?_, ?_, hemp⟩
    · rw [hf1]
      exact hn1
    · rw [hf2]
      exact hn2
    · rw [hf3]
      exact hn3

/-- Planner environment for the C6 witness: every leaf resolves. -/
def c6env : PlannerEnv where
  idleOf := fun _ _ => some (.int 7)
  cutsceneOf := fun _ _ => some (.int 7)
  catalog := fun _ => some ("bundle-a.bundle", "h")
  downloadedRoot := "dl"
  targetRoot := "tg"
  rootRel := "root"

/-- Replacement tree for the C6 witness: the `CostumeA/IDLE` leaf holds no
regular file (only an empty subdirectory), the `CostumeB/CUTSCENE` leaf
holds one file. -/
def c6fs : List FSNode :=
  [FSNode.dir "Hero"
    [FSNode.dir "CostumeA" [FSNode.dir "IDLE" [FSNode.dir "sub" []]],
     FSNode.dir "CostumeB" [FSNode.dir "CUTSCENE" [FSNode.file "g.png" "p"]]]]

/-- The single task the planner produces on the C6 witness tree. -/
def c6task : ReplaceTask :=
  { char := "Hero", costume := "CostumeB", type := "CUTSCENE",
    replace_dir := "root/Hero/CostumeB/CUTSCENE",
    data_name := "bundle-a.bundle", downloaded_dir := "dl/bundle-a.bundle",
    target_dir := "tg/7/h/__data", mod_name := "",
    idle_or_cutscene_value := .int 7, hash_id := "h", should_execute := true }

/-- Planner evaluation on the C6 witness tree: the empty leaf produced no
task at all. -/
theorem c6_mapping_eval : build_replace_mapping c6env c6fs none = [c6task] := by
  have hU2 : upperStr "CUTSCENE" = "CUTSCENE" := rfl
  have hUi : upperStr "IDLE" = "IDLE" := rfl
  have hS : strOrIntStr (.int 7) = "7" := rfl
  have hE1 : is_directory_empty [FSNode.dir "sub" []] = true := by
    simp [is_directory_empty, listHasFile]
  have hE2 : is_directory_empty [FSNode.file "g.png" "p"] = false := by
    simp [is_directory_empty, listHasFile]
  simp [build_replace_mapping, buildTasksBase, c6env, c6fs, c6task,
    create_replace_task, leafShouldExecute, leafRelPath, specificActive, sdSetOf,
    strOrIntFalsy, firstSubdirName, hU2, hUi, hS, hE1, hE2]

/-- Witness for C6: on the concrete tree, the produced task stems from the
non-empty leaf (and the empty leaf contributed nothing, the task list
being a singleton). -/
theorem C6_witness :
    build_replace_mapping c6env c6fs none = [c6task]
      ∧ ∃ ch1 ch2 ch3,
          FSNode.dir c6task.char ch1 ∈ c6fs
            ∧ FSNode.dir c6task.costume ch2 ∈ ch1
            ∧ FSNode.dir c6task.type ch3 ∈ ch2
            ∧ is_directory_empty ch3 = false :=
  ⟨c6_mapping_eval,
    C6_empty_leaf_excluded c6env c6fs none c6task
      (by rw [c6_mapping_eval]; exact List.mem_cons_self _ _)⟩

/-! ## C7: directory-priority replacement with skip rule -/

/-- First-wins characterisation of the per-asset directory loop: when
directory `i` is not skipped for the asset and holds a replacement, and
every earlier directory is either skipped for the asset or holds no
replacement, the loop resolves to directory `i`'s replacement content. -/
theorem resolveReplacement_first (name : String) (dirs : List (List FSNode)) :
    ∀ (i : Nat) (d : List FSNode) (c : String),
      dirs.get? i = some d →
      should_skip_file name d = false →
      find_replacement_file name d = some c →
      (∀ j dj, j < i → dirs.get? j = some dj →
        should_skip_file name dj = true ∨ find_replacement_file name dj = none) →
      resolveReplacement name dirs = some c := by
  induction dirs with
  | nil =>
    intro i d c hd
    simp [List.get?] at hd
  | cons d0 rest ih =>
    intro i d c hd hskip hfind hbefore
    cases i with
    | zero =>
      cases Option.some.inj hd
      unfold resolveReplacement
      rw [if_neg (by simp [hskip])]
      rw [hfind]
    | succ i2 =>
      unfold resolveReplacement
      by_cases hs0 : should_skip_file name d0 = true
      · rw [if_pos hs0]
        exact ih i2 d c hd hskip hfind
          (fun j dj hj hdj => hbefore (j + 1) dj (Nat.succ_lt_succ hj) hdj)
      · rw [if_neg hs0]
        have hn0 : find_replacement_file name d0 = none := by
          rcases hbefore 0 d0 (Nat.succ_pos _) rfl with hsk | hnf
          · exact absurd hsk hs0
          · exact hnf
        rw [hn0]
        exact ih i2 d c hd hskip hfind
          (fun j dj hj hdj => hbefore (j + 1) dj (Nat.succ_lt_succ hj) hdj)

/-- Claim C7: for a skeleton/atlas asset needing replacement, the content
applied is the one from the first directory (in the given order) that
contains a same-named file and is not excluded by the skip rule for this
asset; directories where the descriptor (.json) exists without the
skeleton (.skel) are skipped for the asset in that directory only, and no
later directory is applied once one directory won. -/
theorem C7_first_directory_wins (objs : List UnityObj) (dirs : List (List FSNode))
    (nm sc : String) (i : Nat) (d : List FSNode) (c : String)
    (hobj : UnityObj.textAsset nm sc ∈ objs)
    (hty : get_file_type nm = FileType.skel ∨ get_file_type nm = FileType.atlas)
    (hd : dirs.get? i = some d)
    (hskip : should_skip_file nm d = false)
    (hfind : find_replacement_file nm d = some c)
    (hbefore : ∀ j dj, j < i → dirs.get? j = some dj →
      should_skip_file nm dj = true ∨ find_replacement_file nm dj = none) :
    resolveReplacement nm dirs = some c
      ∧ UnityObj.textAsset nm c ∈ process_multiple_replace_dirs objs dirs := by
  have hres := resolveReplacement_first nm dirs i d c hd hskip hfind hbefore
  refine ⟨hres, ?_⟩
  unfold process_multiple_replace_dirs
  refine List.mem_map.mpr ⟨UnityObj.textAsset nm sc, hobj, ?_⟩
  dsimp only
  have hcond : (decide (get_file_type nm = FileType.skel)
      || decide (get_file_type nm = FileType.atlas)) = true := by
    rcases hty with h | h <;> simp [h]
  rw [if_pos hcond, hres]

/-- First replacement directory of the C7 witness: it holds the asset but
also a descriptor (.json) without the skeleton (.skel), so the skip rule
fires for the asset there. -/
def c7dirA : List FSNode := [FSNode.file "a.json" "j", FSNode.file "a.atlas" "A1"]

/-- Second replacement directory of the C7 witness: the replacement file
sits in a subdirectory and no descriptor blocks it. -/
def c7dirB : List FSNode := [FSNode.dir "m" [FSNode.file "a.atlas" "A2"]]

/-- Bundle objects of the C7 witness. -/
def c7objs : List UnityObj :=
  [UnityObj.textAsset "a.atlas" "orig", UnityObj.other "Mesh"]

/-- Witness for C7: the first directory is skipped by the
descriptor-without-skeleton rule, so the second directory's content is
applied. -/
theorem C7_witness :
    resolveReplacement "a.atlas" [c7dirA, c7dirB] = some "A2"
      ∧ UnityObj.textAsset "a.atlas" "A2"
          ∈ process_multiple_replace_dirs c7objs [c7dirA, c7dirB] :=
  C7_first_directory_wins c7objs [c7dirA, c7dirB] "a.atlas" "orig" 1 c7dirB "A2"
    (by decide) (Or.inr rfl) rfl (by decide)
    (by simp [find_replacement_file, findInDirs, findFileNamed, c7dirB])
    (by
      intro j dj hj hdj
      have hj0 : j = 0 := by omega
      subst hj0
      have hdj2 : c7dirA = dj := Option.some.inj hdj
      subst hdj2
      exact Or.inl (by decide))

/-! ## C4: rowspan carry in `_build_table_matrix` -/

/-- Each column iteration appends exactly one entry to `row_data`. -/
theorem colStep_rowData (cells : List Cell) (col : Nat) (st : RowState) :
    ∃ v, (colStep cells col st).rowData = st.rowData ++ [v] := by
  cases htr : st.tracker col with
  | some p => exact ⟨p.2, by simp [colStep, htr]⟩
  | none =>
    cases hc : cells[st.cellIndex]? with
    | some cell => exact ⟨cell.value, by simp [colStep, htr, hc]⟩
    | none => exact ⟨"", by simp [colStep, htr, hc]⟩

/-- A column iteration touches the tracker only at its own column. -/
theorem colStep_tracker_ne (cells : List Cell) (col : Nat) (st : RowState)
    (k : Nat) (hk : k ≠ col) :
    (colStep cells col st).tracker k = st.tracker k := by
  cases htr : st.tracker col with
  | some p => simp [colStep, htr, trackerSet, hk]
  | none =>
    cases hc : cells[st.cellIndex]? with
    | some cell =>
      cases hrs : cell.rowspan with
      | some rs =>
        by_cases hgt : rs > 1 <;> simp [colStep, htr, hc, hrs, hgt, trackerSet, hk]
      | none => simp [colStep, htr, hc, hrs]
    | none => simp [colStep, htr, hc]

/-- A column iteration consumes at most one physical cell. -/
theorem colStep_cellIndex_le (cells : List Cell) (col : Nat) (st : RowState) :
    (colStep cells col st).cellIndex ≤ st.cellIndex + 1 := by
  cases htr : st.tracker col with
  | some p => simp [colStep, htr]
  | none =>
    cases hc : cells[st.cellIndex]? with
    | some cell => simp [colStep, htr, hc]
    | none => simp [colStep, htr, hc]

/-- A column under an active carry consumes no physical cell. -/
theorem colStep_cellIndex_carry (cells : List Cell) (col : Nat) (st : RowState)
    (p : Nat × String) (htr : st.tracker col = some p) :
    (colStep cells col st).cellIndex = st.cellIndex := by
  simp [colStep, htr]

/-- Behaviour of a column iteration at a column under an active carry:
the carried value is appended, the cell cursor is unchanged, and the carry
is decremented or deleted. -/
theorem colStep_carry (cells : List Cell) (col : Nat) (st : RowState)
    (k : Nat) (v : String) (htr : st.tracker col = some (k, v)) :
    (colStep cells col st).rowData = st.rowData ++ [v]
      ∧ (colStep cells col st).cellIndex = st.cellIndex
      ∧ (colStep cells col st).tracker
          = trackerSet st.tracker col (if k > 1 then some (k - 1, v) else none) := by
  refine ⟨?_, ?_, ?_⟩ <;> simp [colStep, htr]

/-- The bounded column loop only ever extends `row_data`. -/
theorem buildRowLoop_rowData_ext (cells : List Cell) :
    ∀ (fuel col : Nat) (st : RowState),
      ∃ ext, (buildRowLoop cells fuel col st).rowData = st.rowData ++ ext := by
  intro fuel
  induction fuel with
  | zero =>
    intro col st
    exact ⟨[], by simp [buildRowLoop]⟩
  | succ f ih =>
    intro col st
    rw [buildRowLoop]
    obtain ⟨v, hv⟩ := colStep_rowData cells col st
    by_cases hlen : (colStep cells col st).rowData.length ≥ 10
    · rw [if_pos hlen]
      exact ⟨[v], hv⟩
    · rw [if_neg hlen]
      obtain ⟨ext, hext⟩ := ih (col + 1) (colStep cells col st)
      exact ⟨v :: ext, by rw [hext, hv, List.append_assoc]; rfl⟩

/-- The bounded column loop never touches tracker entries below the
current column. -/
theorem buildRowLoop_tracker_lt (cells : List Cell) :
    ∀ (fuel col : Nat) (st : RowState) (k : Nat), k < col →
      (buildRowLoop cells fuel col st).tracker k = st.tracker k := by
  intro fuel
  induction fuel with
  | zero =>
    intro col st k _
    simp [buildRowLoop]
  | succ f ih =>
    intro col st k hk
    rw [buildRowLoop]
    by_cases hlen : (colStep cells col st).rowData.length ≥ 10
    · rw [if_pos hlen]
      exact colStep_tracker_ne cells col st k (by omega)
    · rw [if_neg hlen]
      rw [ih (col + 1) (colStep cells col st) k (by omega)]
      exact colStep_tracker_ne cells col st k (by omega)

/-- Main single-row carry lemma: when the tracker carries `(k, v)` at a
column not yet reached (and the row has not yet been cut off), the
produced row holds `v` at that column and the carry is decremented (or
deleted when exhausted). -/
theorem buildRowLoop_carry (cells : List Cell) :
    ∀ (fuel col : Nat) (st : RowState) (c k : Nat) (v : String),
      st.tracker c = some (k, v) → col ≤ c → c < 10 →
      st.rowData.length = col → c < col + fuel →
      (buildRowLoop cells fuel col st).rowData.get? c = some v
        ∧ (buildRowLoop cells fuel col st).tracker c
            = (if k > 1 then some (k - 1, v) else none) := by
  intro fuel
  induction fuel with
  | zero =>
    intro col st c k v _ hle _ _ hfuel
    omega
  | succ f ih =>
    intro col st c k v htr hle hc10 hlen hfuel
    rw [buildRowLoop]
    by_cases hcol : col = c
    · subst hcol
      obtain ⟨hrd, hci, htrk⟩ := colStep_carry cells col st k v htr
      by_cases hlen10 : (colStep cells col st).rowData.length ≥ 10
      · rw [if_pos hlen10]
        constructor
        · rw [hrd, ← hlen]
          exact List.get?_concat_length st.rowData v
        · rw [htrk]
          simp [trackerSet]
      · rw [if_neg hlen10]
        have hlen1 : (colStep cells col st).rowData.length = col + 1 := by
          rw [hrd]
          simp [hlen]
        constructor
        · obtain ⟨ext, hext⟩ := buildRowLoop_rowData_ext cells f (col + 1) (colStep cells col st)
          rw [hext, List.get?_append (by omega)]
          rw [hrd, ← hlen]
          exact List.get?_concat_length st.rowData v
        · rw [buildRowLoop_tracker_lt cells f (col + 1) (colStep cells col st) col (by omega)]
          rw [htrk]
          simp [trackerSet]
    · have hlt : col < c := lt_of_le_of_ne hle hcol
      have htr1 : (colStep cells col st).tracker c = some (k, v) := by
        rw [colStep_tracker_ne cells col st c (by omega)]
        exact htr
      obtain ⟨v0, hv0⟩ := colStep_rowData cells col st
      have hlen1 : (colStep cells col st).rowData.length = col + 1 := by
        rw [hv0]
        simp [hlen]
      by_cases hlen10 : (colStep cells col st).rowData.length ≥ 10
      · omega
      · rw [if_neg hlen10]
        exact ih (col + 1) (colStep cells col st) c k v htr1 (by omega) hc10 hlen1 (by omega)

/-- Bound on cell consumption of the bounded column loop. -/
theorem buildRowLoop_cellIndex_le (cells : List Cell) :
    ∀ (fuel col : Nat) (st : RowState), st.rowData.length = col → col < 10 →
      (buildRowLoop cells fuel col st).cellIndex ≤ st.cellIndex + (10 - col) := by
  intro fuel
  induction fuel with
  | zero =>
    intro col st _ _
    simp [buildRowLoop]
  | succ f ih =>
    intro col st hlen hcol
    rw [buildRowLoop]
    have hci := colStep_cellIndex_le cells col st
    obtain ⟨v0, hv0⟩ := colStep_rowData cells col st
    have hlen1 : (colStep cells col st).rowData.length = col + 1 := by
      rw [hv0]
      simp [hlen]
    by_cases hlen10 : (colStep cells col st).rowData.length ≥ 10
    · rw [if_pos hlen10]
      omega
    · rw [if_neg hlen10]
      have := ih (col + 1) (colStep cells col st) hlen1 (by omega)
      omega

/-- A row processed under an active carry at a visible column consumes at
least one cell fewer than the column count: the carried column consumes no
physical cell. -/
theorem buildRowLoop_cellIndex_carry_le (cells : List Cell) :
    ∀ (fuel col : Nat) (st : RowState) (c k : Nat) (v : String),
      st.tracker c = some (k, v) → col ≤ c → c < 10 →
      st.rowData.length = col → c < col + fuel →
      (buildRowLoop cells fuel col st).cellIndex ≤ st.cellIndex + (10 - col) - 1 := by
  intro fuel
  induction fuel with
  | zero =>
    intro col st c k v _ hle _ _ hfuel
    omega
  | succ f ih =>
    intro col st c k v htr hle hc10 hlen hfuel
    rw [buildRowLoop]
    by_cases hcol : col = c
    · subst hcol
      obtain ⟨hrd, hci, htrk⟩ := colStep_carry cells col st k v htr
      have hlen1 : (colStep cells col st).rowData.length = col + 1 := by
        rw [hrd]
        simp [hlen]
      by_cases hlen10 : (colStep cells col st).rowData.length ≥ 10
      · rw [if_pos hlen10]
        omega
      · rw [if_neg hlen10]
        have := buildRowLoop_cellIndex_le cells f (col + 1) (colStep cells col st) hlen1 (by omega)
        omega
    · have hlt : col < c := lt_of_le_of_ne hle hcol
      have htr1 : (colStep cells col st).tracker c = some (k, v) := by
        rw [colStep_tracker_ne cells col st c (by omega)]
        exact htr
      have hci := colStep_cellIndex_le cells col st
      obtain ⟨v0, hv0⟩ := colStep_rowData cells col st
      have hlen1 : (colStep cells col st).rowData.length = col + 1 := by
        rw [hv0]
        simp [hlen]
      by_cases hlen10 : (colStep cells col st).rowData.length ≥ 10
      · omega
      · rw [if_neg hlen10]
        have := ih (col + 1) (colStep cells col st) c k v htr1 (by omega) hc10 hlen1 (by omega)
        omega

/-- Row-level carry lemma, specialised to the loop entry state. -/
theorem rowStep_carry (tr : Tracker) (cells : List Cell) (c k : Nat) (v : String)
    (htr : tr c = some (k, v)) (hc : c < 10) :
    (rowStep tr cells).rowData.get? c = some v
      ∧ (rowStep tr cells).tracker c = (if k > 1 then some (k - 1, v) else none) :=
  buildRowLoop_carry cells 20 0 ⟨[], 0, tr⟩ c k v htr (Nat.zero_le c) hc rfl (by omega)

/-- A row processed under an active carry consumes at most 9 physical
cells. -/
theorem rowStep_cellIndex_carry (tr : Tracker) (cells : List Cell) (c k : Nat) (v : String)
    (htr : tr c = some (k, v)) (hc : c < 10) :
    (rowStep tr cells).cellIndex ≤ 9 :=
  buildRowLoop_cellIndex_carry_le cells 20 0 ⟨[], 0, tr⟩ c k v htr (Nat.zero_le c) hc rfl
    (by omega)

/-- Carry propagation across the rows of the outer loop: a tracker entry
`(k, v)` at column `c` puts `v` at column `c` of each of the next `k`
produced rows (as far as rows exist). -/
theorem buildRows_carry (c : Nat) (v : String) :
    ∀ (rows : List (List Cell)) (tr : Tracker) (k j : Nat),
      tr c = some (k, v) → c < 10 → j < k → j < rows.length →
      ∃ row, (buildRows tr rows).get? j = some row ∧ row.get? c = some v := by
  intro rows
  induction rows with
  | nil =>
    intro tr k j _ _ _ hj
    simp at hj
  | cons cells rest ih =>
    intro tr k j htr hc hjk hj
    obtain ⟨hrd, htrk⟩ := rowStep_carry tr cells c k v htr hc
    cases j with
    | zero =>
      refine ⟨(rowStep tr cells).rowData, ?_, hrd⟩
      simp [buildRows]
    | succ j2 =>
      have hk1 : k > 1 := by omega
      rw [if_pos hk1] at htrk
      obtain ⟨row, hrow, hval⟩ :=
        ih (rowStep tr cells).tracker (k - 1) j2 htrk hc (by omega) (by simpa using hj)
      refine ⟨row, ?_, hval⟩
      simpa [buildRows] using hrow

/-- Tracker evolution across rows: a carry `(k, v)` decrements once per
produced row while rows remain. -/
theorem trackerAfterRows_carry (c : Nat) (v : String) :
    ∀ (rows : List (List Cell)) (tr : Tracker) (k j : Nat),
      tr c = some (k, v) → c < 10 → j < k → j ≤ rows.length →
      trackerAfterRows tr (rows.take j) c = some (k - j, v) := by
  intro rows
  induction rows with
  | nil =>
    intro tr k j htr _ _ hjle
    have hj0 : j = 0 := Nat.le_zero.mp (by simpa using hjle)
    subst hj0
    simpa [trackerAfterRows] using htr
  | cons cells rest ih =>
    intro tr k j htr hc hjk hjle
    cases j with
    | zero => simpa [trackerAfterRows] using htr
    | succ j2 =>
      have hk1 : k > 1 := by omega
      obtain ⟨_, htrk⟩ := rowStep_carry tr cells c k v htr hc
      rw [if_pos hk1] at htrk
      have hrec := ih (rowStep tr cells).tracker (k - 1) j2 htrk hc (by omega) (by simpa using hjle)
      have hsub : k - 1 - j2 = k - (j2 + 1) := by omega
      rw [List.take_succ_cons, trackerAfterRows]
      rw [hrec, hsub]

/-- The outer loop produces one matrix row per physical row. -/
theorem buildRows_length (rows : List (List Cell)) :
    ∀ tr : Tracker, (buildRows tr rows).length = rows.length := by
  induction rows with
  | nil => intro tr; rfl
  | cons cells rest ih => intro tr; simp [buildRows, ih]

/-- The outer loop splits over list appends, threading the tracker. -/
theorem buildRows_append (l1 l2 : List (List Cell)) :
    ∀ tr : Tracker,
      buildRows tr (l1 ++ l2)
        = buildRows tr l1 ++ buildRows (trackerAfterRows tr l1) l2 := by
  induction l1 with
  | nil => intro tr; simp [buildRows, trackerAfterRows]
  | cons cells rest ih => intro tr; simp [buildRows, trackerAfterRows, ih]

/-- Tracker threading splits over list appends. -/
theorem trackerAfterRows_append (l1 l2 : List (List Cell)) :
    ∀ tr : Tracker,
      trackerAfterRows tr (l1 ++ l2)
        = trackerAfterRows (trackerAfterRows tr l1) l2 := by
  induction l1 with
  | nil => intro tr; simp [trackerAfterRows]
  | cons cells rest ih => intro tr; simp [trackerAfterRows, ih]

/-- Claim C4: when processing row `i` of the table leaves the rowspan
tracker with carry `(N - 1, v)` at column `c` (as seeding by a physical
cell with declared rowspan `N > 1` and extracted value `v` does), each of
the next `N - 1` matrix rows that exists holds exactly `v` at column `c`,
and each of those carried rows consumes at most 9 of its physical cells
(the carried column consumes none). -/
theorem C4_rowspan_carry (trs : List (List Cell)) (i c N : Nat) (v : String)
    (hc : c < 10) (hN : 1 < N)
    (hseed : trackerBefore trs (i + 1) c = some (N - 1, v)) :
    ∀ j, 1 ≤ j → j < N → i + j < trs.length →
      (∃ row, (build_table_matrix trs).get? (i + j) = some row ∧ row.get? c = some v)
        ∧ (rowStep (trackerBefore trs (i + j)) (trs.getD (i + j) [])).cellIndex ≤ 9 := by
  intro j hj1 hjN hlen
  have hi1 : i + 1 ≤ trs.length := by omega
  have hsplit : trs = trs.take (i + 1) ++ trs.drop (i + 1) := (List.take_append_drop _ _).symm
  have hlen1 : (trs.take (i + 1)).length = i + 1 := List.length_take_of_le hi1
  have hdroplen : (trs.drop (i + 1)).length = trs.length - (i + 1) := List.length_drop _ _
  have htb : trackerBefore trs (i + j)
      = trackerAfterRows (trackerBefore trs (i + 1)) ((trs.drop (i + 1)).take (j - 1)) := by
    unfold trackerBefore
    have : i + j = (i + 1) + (j - 1) := by omega
    rw [this, List.take_add, trackerAfterRows_append]
  constructor
  · unfold build_table_matrix
    rw [show buildRows emptyTracker trs
        = buildRows emptyTracker (trs.take (i + 1) ++ trs.drop (i + 1)) by rw [← hsplit]]
    rw [buildRows_append]
    rw [List.get?_append_right (by rw [buildRows_length, hlen1]; omega)]
    rw [buildRows_length, hlen1]
    exact buildRows_carry c v (trs.drop (i + 1)) (trackerBefore trs (i + 1)) (N - 1)
      (i + j - (i + 1)) hseed hc (by omega) (by omega)
  · have htrj : trackerBefore trs (i + j) c = some (N - 1 - (j - 1), v) := by
      rw [htb]
      exact trackerAfterRows_carry c v (trs.drop (i + 1)) (trackerBefore trs (i + 1))
        (N - 1) (j - 1) hseed hc (by omega) (by omega)
    exact rowStep_cellIndex_carry _ _ c (N - 1 - (j - 1)) v htrj hc

/-- Concrete table for the C4 witness: the first physical row declares a
rowspan of 2 at column 0. -/
def c4trs : List (List Cell) :=
  [[⟨some 2, "A"⟩, ⟨none, "b1"⟩], [⟨none, "b2"⟩]]

/-- Witness for C4: after the seeding row, the next matrix row repeats the
carried value at column 0 and consumes at most 9 cells. -/
theorem C4_witness :
    trackerBefore c4trs 1 0 = some (1, "A")
      ∧ ((∃ row, (build_table_matrix c4trs).get? 1 = some row ∧ row.get? 0 = some "A")
          ∧ (rowStep (trackerBefore c4trs 1) (c4trs.getD 1 [])).cellIndex ≤ 9) :=
  ⟨by decide,
    C4_rowspan_carry c4trs 0 0 2 "A" (by decide) (by decide) (by decide)
      1 (by decide) (by decide) (by decide)⟩
